import Mathlib

/-!
# lineup-system: the schedule registry and its HTTP handlers

A shallow embedding of `model/schedule/schedule.go` and
`route/handler/{helper,schedule}.go`.

* The table `Schedule` is a list of rows in insertion order; a `DB` value is the
  state of the database handle and every method of the Go type `DB` becomes a
  function that takes the state and returns the new state with Go's `error` value
  (`none` is `nil`).
* The statements handed to `db.Exec` are fixed texts with `?` placeholders; each is
  embedded by its SQL meaning on the list of rows.
* The text handed to `db.Query` by `SelectedBy` is assembled at run time, so the
  embedding keeps it a text and reads it with a small model of the SQLite front end
  (`lex`, `parseSelect`, `evalExpr`).
-/

namespace Lineup

/-! ## Data model (schedule.go, lines 11-32) -/

/-- Schedule records one row of table `Schedule`. `ArrivedAt` is a timestamp, kept
as a number. Go's `int` is 64 bits wide; no operation of the package does
arithmetic on `ClassNo` or `Priority`, so they are plain integers here. -/
structure Schedule where
  ClassCode : String
  ClassNo : Int
  ArrivedAt : Nat
  Priority : Int
  IsNotified : Bool
  IsMeeting : Bool
  IsComplete : Bool
deriving DecidableEq, Repr

/-- The `error` values the embedded code can return. `constraint` is the engine
refusing a row that breaks a uniqueness constraint, `malformed` is the engine
refusing a statement text, `outside` marks a statement text that the model of the
engine does not cover (no theorem concludes anything from it). -/
inductive DbError where
  | constraint
  | malformed
  | outside
deriving DecidableEq, Repr

/-- The state behind the Go type `DB`: the rows of table `Schedule`, and whether the
table was declared with `(classcode, classno)` as a unique key. The declaration of
the table is not part of the sources, so it is a field of the state. -/
structure DB where
  uniqueKey : Bool
  rows : List Schedule
deriving DecidableEq, Repr

/-- Query stores the class codes and the two predicate texts of a selection. -/
structure Query where
  Classcodes : List String
  IsComplete : String
  Priority : String
deriving DecidableEq, Repr

/-- The row condition `classcode = ? and classno = ?` of the DELETE and UPDATE
statements, with the two placeholders bound. -/
def keyMatches (classCode : String) (classNo : Int) (s : Schedule) : Bool :=
  s.ClassCode == classCode && s.ClassNo == classNo

/-- The key `(classcode, classno)` of a row. -/
def keyOf (s : Schedule) : String × Int := (s.ClassCode, s.ClassNo)

/-- The keys of the rows of a table, in row order. -/
def keys (db : DB) : List (String × Int) := db.rows.map keyOf

/-! ## Mutations (schedule.go, lines 74-143) -/

/-- Insert: `INSERT INTO Schedule (...) values (?, ?, ?, ?, ?, ?, ?)` bound to
`classCode, classNo, time.Now(), 0, false, false, false`. The engine refuses the row
when the table has a unique key and a row with the same key is stored; the error is
returned as it is. `now` is the value of `time.Now()`. -/
def DB.Insert (db : DB) (classCode : String) (classNo : Int) (now : Nat) :
    DB × Option DbError :=
  if db.uniqueKey && db.rows.any (keyMatches classCode classNo) then
    (db, some DbError.constraint)
  else
    ({ db with rows := db.rows ++ [⟨classCode, classNo, now, 0, false, false, false⟩] },
      none)

/-- Delete: `DELETE FROM Schedule WHERE (classcode = ? and classno = ?)`. The
statement removes every row that satisfies the condition; `db.Exec` reports no error
when no row does, and the result with the number of affected rows is discarded
(`_, err := db.Exec(...)`). -/
def DB.Delete (db : DB) (classcode : String) (classno : Int) : DB × Option DbError :=
  ({ db with rows := db.rows.filter (fun s => !keyMatches classcode classno s) }, none)

/-- UpdatePriority: `UPDATE Schedule SET priority = ? WHERE (classcode = ? and
classno = ?)`. -/
def DB.UpdatePriority (db : DB) (classcode : String) (classno : Int) (priority : Int) :
    DB × Option DbError :=
  ({ db with rows := db.rows.map (fun s =>
      if keyMatches classcode classno s then { s with Priority := priority } else s) },
    none)

/-- The assignment `SET key = NOT key` on one row, for the three column names the
package passes to `toggleFactory`; `none` for any other text. -/
def negateColumn (key : String) : Option (Schedule → Schedule) :=
  if key = "is_notified" then some (fun s => { s with IsNotified := !s.IsNotified })
  else if key = "is_meeting" then some (fun s => { s with IsMeeting := !s.IsMeeting })
  else if key = "is_complete" then some (fun s => { s with IsComplete := !s.IsComplete })
  else none

/-- toggleFactory: the closure that executes
`UPDATE Schedule SET key = NOT key WHERE (classcode = ? and classno = ?)`.
The statement text depends on `key`; for a `key` that is none of the three flag
columns the statement is outside the model. -/
def DB.toggleFactory (db : DB) (key : String) (classCode : String) (classNo : Int) :
    DB × Option DbError :=
  match negateColumn key with
  | none => (db, some DbError.outside)
  | some f =>
    ({ db with rows := db.rows.map (fun s =>
        if keyMatches classCode classNo s then f s else s) },
      none)

/-- ToggleIsNotified toggles IsNotified. -/
def DB.ToggleIsNotified (db : DB) (classCode : String) (classNo : Int) :
    DB × Option DbError :=
  db.toggleFactory "is_notified" classCode classNo

/-- ToggleIsMeeting toggles IsMeeting. -/
def DB.ToggleIsMeeting (db : DB) (classCode : String) (classNo : Int) :
    DB × Option DbError :=
  db.toggleFactory "is_meeting" classCode classNo

/-- ToggleIsComplete toggles IsComplete. -/
def DB.ToggleIsComplete (db : DB) (classCode : String) (classNo : Int) :
    DB × Option DbError :=
  db.toggleFactory "is_complete" classCode classNo

/-! ## The statement text of `SelectedBy` (schedule.go, lines 34-47) -/

/-- Go's `strings.Join(elems, sep)`. -/
def Join : List String → String → String
  | [], _ => ""
  | [a], _ => a
  | a :: b :: rest, sep => a ++ sep ++ Join (b :: rest) sep

/-- The text that `SelectedBy` assembles in its local variable `query` (lines 38-47)
and hands to `db.Query`: the class codes joined by `" or classcode = "` inside
`SELECT * FROM Schedule WHERE (classcode = "%s")`, then ` and is_complete%s` when
`q.IsComplete` is not empty, then ` and priority%s` when `q.Priority` is not empty. -/
def SelectedByQuery (q : Query) : String :=
  let classcodes := Join q.Classcodes "\" or classcode = \""
  let query := "SELECT * FROM Schedule WHERE (classcode = \"" ++ classcodes ++ "\")"
  let query := if q.IsComplete ≠ "" then query ++ (" and is_complete" ++ q.IsComplete)
    else query
  let query := if q.Priority ≠ "" then query ++ (" and priority" ++ q.Priority)
    else query
  query

/-! ## A model of the SQLite front end for the texts of `SelectedBy`

`db.Query` belongs to `database/sql` and the SQLite driver. The model covers
statements `SELECT * FROM Schedule WHERE e` where `e` is built from comparisons
between columns, integers, `true`/`false` and double-quoted tokens with `and`, `or`
and parentheses. A text that SQLite certainly refuses gives `DbError.malformed`;
anything else that the model does not cover gives `DbError.outside`.

The driver hands the text to SQLite as a C string, so the text ends at its first NUL
character. SQLite refuses a condition whose tree is deeper than 1000. A statement of
more than 1000000 bytes is within the limit of some builds of SQLite and beyond the
limit of others, so it is not modelled. -/

/-- Comparison operators: `=` (also `==`), `!=` (also `<>`), `<`, `<=`, `>`, `>=`. -/
inductive CmpOp where
  | eq | ne | lt | le | gt | ge
deriving DecidableEq, Repr

/-- Tokens of a statement text. A bare word is kept in lower case (SQL keywords and
column names do not distinguish case); a double-quoted token keeps its text. -/
inductive Token where
  | lparen
  | rparen
  | star
  | tilde
  | word (s : List Char)
  | quoted (s : List Char)
  | num (n : Nat)
  | cmp (o : CmpOp)
deriving DecidableEq, Repr

/-- States of the tokenizer between two characters. -/
inductive LexState where
  | start
  | inWord (acc : List Char)
  | inNum (n : Nat)
  | inQuoted (acc : List Char)
  | quoteSeen (acc : List Char)
  | less
  | greater
  | equal
  | bang
deriving DecidableEq, Repr

/-- The double-quote character. -/
def dq : Char := Char.ofNat 34

/-- The NUL character, which ends a C string. -/
def nul : Char := Char.ofNat 0

/-- Blank characters between tokens. -/
def isBlank (c : Char) : Bool := c = ' ' || c = '\t' || c = '\n' || c = '\r'

/-- Characters that start a bare word (ASCII only). -/
def isWordStart (c : Char) : Bool := c.isAlpha || c = '_'

/-- Characters that continue a bare word (ASCII only). -/
def isWordRest (c : Char) : Bool := c.isAlphanum || c = '_'

/-- What the tokenizer does with character `c` when no token is open. -/
def fromStart (c : Char) : Except DbError (List Token × LexState) :=
  if isBlank c then .ok ([], .start)
  else if c = '(' then .ok ([.lparen], .start)
  else if c = ')' then .ok ([.rparen], .start)
  else if c = '*' then .ok ([.star], .start)
  else if c = '~' then .ok ([.tilde], .start)
  else if c = dq then .ok ([], .inQuoted [])
  else if isWordStart c then .ok ([], .inWord [c.toLower])
  else if c.isDigit then .ok ([], .inNum (c.toNat - 48))
  else if c = '=' then .ok ([], .equal)
  else if c = '<' then .ok ([], .less)
  else if c = '>' then .ok ([], .greater)
  else if c = '!' then .ok ([], .bang)
  else .error .outside

/-- Emit the tokens `ts`, then treat `c` as the first character after them. -/
def emitThen (ts : List Token) (c : Char) : Except DbError (List Token × LexState) :=
  match fromStart c with
  | .ok (us, st) => .ok (ts ++ us, st)
  | .error e => .error e

/-- One step of the tokenizer: the tokens completed by reading `c`, and the next
state. Inside a double-quoted token a doubled quote stands for one quote character;
a single quote ends the token; a NUL ends the text with the token still open, which
SQLite refuses (unrecognized token). -/
def lexStep : LexState → Char → Except DbError (List Token × LexState)
  | .start, c => fromStart c
  | .inWord acc, c =>
    if isWordRest c then .ok ([], .inWord (acc ++ [c.toLower]))
    else emitThen [.word acc] c
  | .inNum n, c =>
    if c.isDigit then .ok ([], .inNum (10 * n + (c.toNat - 48)))
    else if isWordStart c || c = '.' then .error .outside
    else emitThen [.num n] c
  | .inQuoted acc, c =>
    if c = nul then .error .malformed
    else if c = dq then .ok ([], .quoteSeen acc)
    else .ok ([], .inQuoted (acc ++ [c]))
  | .quoteSeen acc, c =>
    if c = dq then .ok ([], .inQuoted (acc ++ [dq])) else emitThen [.quoted acc] c
  | .equal, c =>
    if c = '=' then .ok ([.cmp .eq], .start) else emitThen [.cmp .eq] c
  | .less, c =>
    if c = '=' then .ok ([.cmp .le], .start)
    else if c = '>' then .ok ([.cmp .ne], .start)
    else if c = '<' then .error .outside
    else emitThen [.cmp .lt] c
  | .greater, c =>
    if c = '=' then .ok ([.cmp .ge], .start)
    else if c = '>' then .error .outside
    else emitThen [.cmp .gt] c
  | .bang, c =>
    if c = '=' then .ok ([.cmp .ne], .start) else .error .outside

/-- The tokens completed by the end of the text. A double-quoted token that is still
open is refused by SQLite (unrecognized token). -/
def lexEnd : LexState → Except DbError (List Token)
  | .start => .ok []
  | .inWord acc => .ok [.word acc]
  | .inNum n => .ok [.num n]
  | .inQuoted _ => .error .malformed
  | .quoteSeen acc => .ok [.quoted acc]
  | .equal => .ok [.cmp .eq]
  | .less => .ok [.cmp .lt]
  | .greater => .ok [.cmp .gt]
  | .bang => .error .outside

/-- The tokens of a text, read from state `st`. The text ends where the list ends
or at the first NUL character, whichever comes first. -/
def lex : LexState → List Char → Except DbError (List Token)
  | st, [] => lexEnd st
  | st, c :: cs =>
    if c = nul then lexEnd st
    else
      match lexStep st c with
      | .error e => .error e
      | .ok (ts, st1) =>
        match lex st1 cs with
        | .error e => .error e
        | .ok us => .ok (ts ++ us)

/-- The columns a name can resolve to in table `Schedule`: the seven columns named by
the INSERT statement of `Insert`, and the row id that SQLite gives every table. -/
inductive Column where
  | classcode | classno | arrived_at | priority | is_notified | is_meeting | is_complete
  | rowid
deriving DecidableEq, Repr

/-- The column that a name in lower case resolves to, if any. -/
def columnOf (w : List Char) : Option Column :=
  if w = "classcode".toList then some .classcode
  else if w = "classno".toList then some .classno
  else if w = "arrived_at".toList then some .arrived_at
  else if w = "priority".toList then some .priority
  else if w = "is_notified".toList then some .is_notified
  else if w = "is_meeting".toList then some .is_meeting
  else if w = "is_complete".toList then some .is_complete
  else if w = "rowid".toList || w = "oid".toList || w = "_rowid_".toList then some .rowid
  else none

/-- A class code spells a column name when SQLite would read it, between double
quotes, as a reference to a column and not as a text. -/
def spellsColumn (s : String) : Bool := (columnOf (s.toList.map Char.toLower)).isSome

/-- The operands of a comparison. -/
inductive Operand where
  | column (c : Column)
  | text (s : List Char)
  | int (n : Int)
deriving DecidableEq, Repr

/-- Conditions of a WHERE clause. -/
inductive Expr where
  | cmp (a : Operand) (o : CmpOp) (b : Operand)
  | and (l r : Expr)
  | or (l r : Expr)
deriving DecidableEq, Repr

/-- The operand a token stands for. A bare word is a column, or `true` (1) or `false`
(0). A double-quoted token is a column when it spells one, and a text otherwise (the
way SQLite resolves double-quoted tokens). A number is an integer of 64 bits; a
larger one is not modelled. -/
def operandOf : Token → Except DbError Operand
  | .word w =>
    match columnOf w with
    | some c => .ok (.column c)
    | none =>
      if w = "true".toList then .ok (.int 1)
      else if w = "false".toList then .ok (.int 0)
      else .error .outside
  | .quoted s =>
    match columnOf (s.map Char.toLower) with
    | some c => .ok (.column c)
    | none => .ok (.text s)
  | .num n => if n < 2 ^ 63 then .ok (.int n) else .error .outside
  | _ => .error .outside

/-- Where the parser stands: before a comparison or an opening parenthesis (`atom`,
with the disjunction and the conjunction collected so far at this depth), or after
one (`oper`, the conjunction now holding at least one condition). -/
inductive Mode where
  | atom (disj conj : Option Expr)
  | oper (disj : Option Expr) (conj : Expr)
deriving DecidableEq, Repr

/-- Add a condition to a conjunction. -/
def andWith (conj : Option Expr) (e : Expr) : Expr :=
  match conj with
  | none => e
  | some c => .and c e

/-- Add a conjunction to a disjunction. -/
def orWith (disj : Option Expr) (e : Expr) : Expr :=
  match disj with
  | none => e
  | some d => .or d e

/-- Parse a condition: `or` binds weaker than `and`, which binds weaker than a
comparison; both associate to the left. `stack` holds what was collected outside
each open parenthesis. SQLite reads `~` before an operand only, so it refuses a `~`
that follows an operand or a complete condition. -/
def parseExpr (stack : List (Option Expr × Option Expr)) (m : Mode) :
    List Token → Except DbError Expr
  | [] =>
    match m, stack with
    | .oper d c, [] => .ok (orWith d c)
    | _, _ => .error .outside
  | t :: rest =>
    match m with
    | .atom d c =>
      match t with
      | .lparen => parseExpr ((d, c) :: stack) (.atom none none) rest
      | _ =>
        match rest with
        | .cmp o :: b :: rest2 =>
          match operandOf t, operandOf b with
          | .ok x, .ok y => parseExpr stack (.oper d (andWith c (.cmp x o y))) rest2
          | _, _ => .error .outside
        | .tilde :: _ =>
          match operandOf t with
          | .ok _ => .error .malformed
          | .error e => .error e
        | _ => .error .outside
    | .oper d c =>
      match t with
      | .word w =>
        if w = "and".toList then parseExpr stack (.atom d (some c)) rest
        else if w = "or".toList then parseExpr stack (.atom (some (orWith d c)) none) rest
        else .error .outside
      | .rparen =>
        match stack with
        | [] => .error .outside
        | (d1, c1) :: stack1 => parseExpr stack1 (.oper d1 (andWith c1 (orWith d c))) rest
      | .tilde => .error .malformed
      | _ => .error .outside

/-- Parse `SELECT * FROM Schedule WHERE` followed by a condition. -/
def parseSelect : List Token → Except DbError Expr
  | .word s :: .star :: .word f :: .word t :: .word w :: rest =>
    if s = "select".toList ∧ f = "from".toList ∧ t = "schedule".toList
        ∧ w = "where".toList then
      parseExpr [] (.atom none none) rest
    else .error .outside
  | _ => .error .outside

/-- Values of operands: SQLite stores the flags as the integers 0 and 1. -/
inductive Val where
  | int (n : Int)
  | text (s : List Char)
deriving DecidableEq, Repr

/-- The value of a column in a row. The stored form of `arrived_at` and the row id
are not modelled. -/
def columnValue (s : Schedule) : Column → Except DbError Val
  | .classcode => .ok (.text s.ClassCode.toList)
  | .classno => .ok (.int s.ClassNo)
  | .priority => .ok (.int s.Priority)
  | .is_notified => .ok (.int (if s.IsNotified then 1 else 0))
  | .is_meeting => .ok (.int (if s.IsMeeting then 1 else 0))
  | .is_complete => .ok (.int (if s.IsComplete then 1 else 0))
  | .arrived_at => .error .outside
  | .rowid => .error .outside

/-- The value of an operand in a row. -/
def operandValue (s : Schedule) : Operand → Except DbError Val
  | .column c => columnValue s c
  | .text t => .ok (.text t)
  | .int n => .ok (.int n)

/-- Comparison of two integers. -/
def compareInt (o : CmpOp) (a b : Int) : Bool :=
  match o with
  | .eq => a == b
  | .ne => a != b
  | .lt => a < b
  | .le => a ≤ b
  | .gt => a > b
  | .ge => a ≥ b

/-- Comparison of two values. Two texts are compared for equality only. A text
without a digit is never turned into a number by SQLite, so it differs from every
integer; a text with a digit against an integer depends on the declared column
types and is not modelled. -/
def evalCmp (o : CmpOp) : Val → Val → Except DbError Bool
  | .int a, .int b => .ok (compareInt o a b)
  | .text a, .text b =>
    match o with
    | .eq => .ok (a == b)
    | .ne => .ok (a != b)
    | _ => .error .outside
  | .text a, .int _ =>
    if a.any Char.isDigit then .error .outside
    else match o with
      | .eq => .ok false
      | .ne => .ok true
      | _ => .error .outside
  | .int _, .text b =>
    if b.any Char.isDigit then .error .outside
    else match o with
      | .eq => .ok false
      | .ne => .ok true
      | _ => .error .outside

/-- Whether a row satisfies a condition. -/
def evalExpr (s : Schedule) : Expr → Except DbError Bool
  | .cmp a o b =>
    match operandValue s a, operandValue s b with
    | .ok x, .ok y => evalCmp o x y
    | .error e, _ => .error e
    | _, .error e => .error e
  | .and l r =>
    match evalExpr s l, evalExpr s r with
    | .ok x, .ok y => .ok (x && y)
    | .error e, _ => .error e
    | _, .error e => .error e
  | .or l r =>
    match evalExpr s l, evalExpr s r with
    | .ok x, .ok y => .ok (x || y)
    | .error e, _ => .error e
    | _, .error e => .error e

/-- The rows that satisfy a condition, in table order. -/
def scanRows (e : Expr) : List Schedule → Except DbError (List Schedule)
  | [] => .ok []
  | s :: rest =>
    match evalExpr s e, scanRows e rest with
    | .ok b, .ok out => .ok (if b then s :: out else out)
    | .error err, _ => .error err
    | _, .error err => .error err

/-- The depth of the tree of a condition as SQLite counts it: an operand is 1, and
a comparison, an `and` or an `or` is one more than its deeper side. -/
def exprHeight : Expr → Nat
  | .cmp _ _ _ => 2
  | .and l r => max (exprHeight l) (exprHeight r) + 1
  | .or l r => max (exprHeight l) (exprHeight r) + 1

/-- The deepest condition SQLite accepts (`SQLITE_MAX_EXPR_DEPTH`). -/
def maxExprDepth : Nat := 1000

/-- The length in bytes up to which every build of SQLite accepts a statement. -/
def maxTextBytes : Nat := 1000000

/-- Query: `db.Query(query)` followed by the loop over `rows.Next()` that scans
each row into a `Schedule` (lines 49-71). The database refuses a text it cannot read
and a condition that is too deep. The rows come in table order here; SQLite promises
no order for a SELECT without ORDER BY and may follow an index on the key, so the
general statements about the rows that `SelectedBy` returns speak of which rows are
returned and not of their order. -/
def DB.Query (db : DB) (query : String) : Except DbError (List Schedule) :=
  match lex .start query.toList with
  | .error e => .error e
  | .ok toks =>
    match parseSelect toks with
    | .error e => .error e
    | .ok e =>
      if maxExprDepth < exprHeight e then .error .malformed
      else if maxTextBytes < query.utf8ByteSize then .error .outside
      else scanRows e db.rows

/-- SelectedBy finds all schedules by query: the text is assembled, handed to the
database, and the rows it yields are returned; an error of the database is returned
as it is. No other check is made. -/
def DB.SelectedBy (db : DB) (q : Lineup.Query) : Except DbError (List Schedule) :=
  db.Query (SelectedByQuery q)

/-! ## Handlers (route/handler/helper.go, route/handler/schedule.go)

A handler is run on a request and a state of the store; the embedding returns the
state the store is left in and the calls the handler made to its collaborators, in
the order it made them. -/

/-- The request: `mux.Vars(r)`, the variables of the route. A name the route does
not bind reads as the empty text, as a Go map does. -/
structure Request where
  vars : String → String

/-- The `error` values a handler can hold: the one of `strconv.Atoi`, or one that
the store returned. -/
inductive HandlerError (ε : Type) where
  | atoi
  | store (e : ε)
deriving DecidableEq, Repr

/-- The calls of a handler to its collaborators: `helper.PrintError(w, err, code)`,
`helper.PrintJSON(w, successMessage{message})`, `helper.PrintJSON(w, schedules)`,
the return of the method of the store that the handler called (with the error it
returned), and a send on the channel `h.Broadcast`. -/
inductive Event (ε : Type) where
  | printError (err : Option (HandlerError ε)) (code : Nat)
  | printJSON (message : String)
  | printSchedules (schedules : List Schedule)
  | storeReturned (err : Option ε)
  | broadcast (msg : ByteArray)

/-- ScheduleStore contains all methods to manipulate schedules, over a state `σ` of
the implementation and its errors `ε`. -/
structure ScheduleStore (σ ε : Type) where
  Insert : σ → String → Int → σ × Option ε
  Delete : σ → String → Int → σ × Option ε
  SelectByClassCode : σ → String → Except ε (List Schedule)
  UpdatePriority : σ → String → Int → Int → σ × Option ε
  ToggleIsNotified : σ → String → Int → σ × Option ε
  ToggleIsMeeting : σ → String → Int → σ × Option ε
  ToggleIsComplete : σ → String → Int → σ × Option ε

/-- Go's `http.StatusBadRequest`. -/
def StatusBadRequest : Nat := 400

/-- The value of a text of decimal digits, `none` when a character is no digit. -/
def decimal (acc : Nat) : List Char → Option Nat
  | [] => some acc
  | c :: cs => if c.isDigit then decimal (10 * acc + (c.toNat - 48)) cs else none

/-- The digits of `strconv.Atoi` after the sign: at least one, all decimal, and the
value within the 64 bits of Go's `int`. -/
def atoiBody (neg : Bool) (ds : List Char) : Option Int :=
  if ds.isEmpty then none
  else
    match decimal 0 ds with
    | none => none
    | some n =>
      if neg then (if n ≤ 2 ^ 63 then some (-(n : Int)) else none)
      else (if n < 2 ^ 63 then some (n : Int) else none)

/-- Go's `strconv.Atoi`: an optional sign and decimal digits; `none` stands for the
error it returns. -/
def Atoi (s : String) : Option Int :=
  match s.toList with
  | '+' :: ds => atoiBody false ds
  | '-' :: ds => atoiBody true ds
  | ds => atoiBody false ds

/-- readClassCode reads `classcode` in `mux.Vars`. -/
def readClassCode (r : Request) : String :=
  r.vars "classcode"

/-- readClassCodeAndClassNo reads `classcode` and `classno` in `mux.Vars`. When
`classno` is no number it prints the error itself and returns `"", 0, err`. -/
def readClassCodeAndClassNo {ε : Type} (r : Request) :
    List (Event ε) × String × Int × Option (HandlerError ε) :=
  let errCode := StatusBadRequest
  let classCode := r.vars "classcode"
  let classNoString := r.vars "classno"
  match Atoi classNoString with
  | none => ([.printError (some .atoi) errCode], "", 0, some .atoi)
  | some classNo => ([], classCode, classNo, none)

/-- readRriority reads `priority` in `mux.Vars`. -/
def readRriority {ε : Type} (r : Request) : Int × Option (HandlerError ε) :=
  let priorityString := r.vars "priority"
  match Atoi priorityString with
  | none => (0, some .atoi)
  | some priority => (priority, none)

/-- GetScheduleHandler gets the schedules of the class code of the request. -/
def GetScheduleHandler {σ ε : Type} (s : ScheduleStore σ ε) (r : Request) (st : σ) :
    σ × List (Event ε) :=
  let classCode := readClassCode r
  let errCode := StatusBadRequest
  match s.SelectByClassCode st classCode with
  | .error e => (st, [.printError (some (.store e)) errCode])
  | .ok schedules => (st, [.printSchedules schedules])

/-- AddScheduleHandler adds a schedule by the class code and class number of the
request. -/
def AddScheduleHandler {σ ε : Type} (s : ScheduleStore σ ε) (r : Request) (st : σ) :
    σ × List (Event ε) :=
  let errCode := StatusBadRequest
  match readClassCodeAndClassNo r with
  | (out, _, _, some err) => (st, out ++ [.printError (some err) errCode])
  | (out, classCode, classNo, none) =>
    match s.Insert st classCode classNo with
    | (st1, some err) =>
      (st1, out ++ [.storeReturned (some err), .printError (some (.store err)) errCode])
    | (st1, none) =>
      let message := classCode ++ toString classNo ++ " is added"
      (st1, out ++ [.storeReturned none, .printJSON message, .broadcast classCode.toUTF8])

/-- RemoveScheduleHandler removes a schedule by the class code and class number of
the request. -/
def RemoveScheduleHandler {σ ε : Type} (s : ScheduleStore σ ε) (r : Request) (st : σ) :
    σ × List (Event ε) :=
  let errCode := StatusBadRequest
  match readClassCodeAndClassNo r with
  | (out, _, _, some err) => (st, out ++ [.printError (some err) errCode])
  | (out, classCode, classNo, none) =>
    match s.Delete st classCode classNo with
    | (st1, some err) =>
      (st1, out ++ [.storeReturned (some err), .printError (some (.store err)) errCode])
    | (st1, none) =>
      let message := classCode ++ toString classNo ++ " is removed"
      (st1, out ++ [.storeReturned none, .printJSON message, .broadcast classCode.toUTF8])

/-- UpdatePriorityHandler updates the priority of a schedule; the priority is read
before the class code and class number. -/
def UpdatePriorityHandler {σ ε : Type} (s : ScheduleStore σ ε) (r : Request) (st : σ) :
    σ × List (Event ε) :=
  let errCode := StatusBadRequest
  match readRriority r with
  | (_, some err) => (st, [.printError (some err) errCode])
  | (priority, none) =>
    match readClassCodeAndClassNo r with
    | (out, _, _, some err) => (st, out ++ [.printError (some err) errCode])
    | (out, classCode, classNo, none) =>
      match s.UpdatePriority st classCode classNo priority with
      | (st1, some err) =>
        (st1, out ++ [.storeReturned (some err), .printError (some (.store err)) errCode])
      | (st1, none) =>
        let message := classCode ++ toString classNo ++ "'s priority updated to "
          ++ toString priority
        (st1, out ++ [.storeReturned none, .printJSON message,
          .broadcast classCode.toUTF8])

/-- The map `mapFunc` of `getToggleFunc`, from a flag name to the method of the
store. -/
def mapFunc {σ ε : Type} (s : ScheduleStore σ ε) (name : String) :
    Option (σ → String → Int → σ × Option ε) :=
  if name = "IsNotified" then some s.ToggleIsNotified
  else if name = "IsComplete" then some s.ToggleIsComplete
  else if name = "IsMeeting" then some s.ToggleIsMeeting
  else none

/-- getToggleFunc: the handler that toggles the flag called `name`. When `name` is
not in the map, `err` is still `nil` where the error is printed. -/
def getToggleFunc {σ ε : Type} (s : ScheduleStore σ ε) (name : String) (r : Request)
    (st : σ) : σ × List (Event ε) :=
  let errCode := StatusBadRequest
  match readClassCodeAndClassNo r with
  | (out, _, _, some err) => (st, out ++ [.printError (some err) errCode])
  | (out, classCode, classNo, none) =>
    match mapFunc s name with
    | none => (st, out ++ [.printError none errCode])
    | some toggleFunc =>
      match toggleFunc st classCode classNo with
      | (st1, some err) =>
        (st1, out ++ [.storeReturned (some err), .printError (some (.store err)) errCode])
      | (st1, none) =>
        let message := classCode ++ toString classNo ++ " toggled " ++ name
        (st1, out ++ [.storeReturned none, .printJSON message,
          .broadcast classCode.toUTF8])

/-- ToggleIsCompleteHandler toggles IsComplete of a schedule. -/
def ToggleIsCompleteHandler {σ ε : Type} (s : ScheduleStore σ ε) (r : Request) (st : σ) :
    σ × List (Event ε) :=
  getToggleFunc s "IsComplete" r st

/-- ToggleIsNotifiedHandler toggles IsNotified of a schedule. -/
def ToggleIsNotifiedHandler {σ ε : Type} (s : ScheduleStore σ ε) (r : Request) (st : σ) :
    σ × List (Event ε) :=
  getToggleFunc s "IsNotified" r st

/-- ToggleIsMeetingHandler toggles IsMeeting of a schedule. -/
def ToggleIsMeetingHandler {σ ε : Type} (s : ScheduleStore σ ε) (r : Request) (st : σ) :
    σ × List (Event ε) :=
  getToggleFunc s "IsMeeting" r st

/-- The messages sent on `h.Broadcast`, in the order they were sent. -/
def broadcasts {ε : Type} : List (Event ε) → List ByteArray
  | [] => []
  | .broadcast msg :: rest => msg :: broadcasts rest
  | _ :: rest => broadcasts rest

/-! ## Sequences of operations on the registry -/

/-- Modelled from the spec: the declaration of table `Schedule` (its CREATE TABLE
statement), which is not among the sources. The data model of the spec says that the
key is unique within the registry, no two entries share `(classCode, classNo)`, and
that Insert fails when the key already exists; so the table is taken to declare
`(classcode, classno)` as a unique key. -/
def scheduleKeyIsUnique : Bool := true

/-- The registry with the table as the spec declares it, and no rows. -/
def emptyRegistry : DB := ⟨scheduleKeyIsUnique, []⟩

/-- One call of a mutating method of `DB`, with its arguments (`now` is the clock
read by `Insert`). -/
inductive Op where
  | insert (classCode : String) (classNo : Int) (now : Nat)
  | delete (classCode : String) (classNo : Int)
  | updatePriority (classCode : String) (classNo : Int) (priority : Int)
  | toggleIsNotified (classCode : String) (classNo : Int)
  | toggleIsMeeting (classCode : String) (classNo : Int)
  | toggleIsComplete (classCode : String) (classNo : Int)
deriving DecidableEq, Repr

/-- Run one call. -/
def Op.run (db : DB) : Op → DB × Option DbError
  | .insert classCode classNo now => db.Insert classCode classNo now
  | .delete classCode classNo => db.Delete classCode classNo
  | .updatePriority classCode classNo priority => db.UpdatePriority classCode classNo priority
  | .toggleIsNotified classCode classNo => db.ToggleIsNotified classCode classNo
  | .toggleIsMeeting classCode classNo => db.ToggleIsMeeting classCode classNo
  | .toggleIsComplete classCode classNo => db.ToggleIsComplete classCode classNo

/-- Run the calls one after the other, whatever each returns. -/
def runOps (db : DB) : List Op → DB
  | [] => db
  | op :: rest => runOps (op.run db).1 rest

/-- Run the calls one after the other as long as each returns `nil`; `none` when
one of them returns an error. -/
def runSuccessful (db : DB) : List Op → Option DB
  | [] => some db
  | op :: rest =>
    match op.run db with
    | (db1, none) => runSuccessful db1 rest
    | (_, some _) => none

/-- Call `f` on the registry `n` times in sequence, as long as each call returns
`nil`. -/
def callTimes (f : DB → DB × Option DbError) : Nat → DB → Option DB
  | 0, db => some db
  | n + 1, db =>
    match f db with
    | (db1, none) => callTimes f n db1
    | (_, some _) => none

/-- The value of a flag after `n` toggles: itself for an even `n`, its negation
for an odd `n`. -/
def afterToggles (n : Nat) (b : Bool) : Bool := if n % 2 = 0 then b else !b

/-- Key `k` was inserted by one of the calls and not deleted by a later one. -/
def InsertedNotDeleted (k : String × Int) (ops : List Op) : Prop :=
  ∃ pre post now, ops = pre ++ Op.insert k.1 k.2 now :: post ∧ Op.delete k.1 k.2 ∉ post

/-! ## The publish contract of the mutation handlers -/

/-- The calls `trace` hold exactly one send on `h.Broadcast`, of `msg`, and it comes
after the method of the store returned `nil`. -/
def PublishedOnceAfterCommit {ε : Type} (trace : List (Event ε)) (msg : ByteArray) : Prop :=
  ∃ pre post, trace = pre ++ Event.storeReturned none :: post
    ∧ broadcasts pre = [] ∧ broadcasts post = [msg]

/-- What a mutation handler owes for a request with class code `classCode`. `call`
is `none` when a parameter of the request did not parse, and otherwise what the
method of the store returns on the parsed parameters. When the method returns `nil`
the handler leaves the store in the state the method produced and sends exactly one
message, the bytes of `classCode`, after the method returned; in every other case it
sends nothing. -/
def PublishContract {σ ε : Type} (result : σ × List (Event ε)) (classCode : String)
    (call : Option (σ × Option ε)) : Prop :=
  match call with
  | some (st1, none) => result.1 = st1 ∧ PublishedOnceAfterCommit result.2 classCode.toUTF8
  | _ => broadcasts result.2 = []

/-! ## Reading a text in two parts -/

/-- The tokens completed and the state reached after reading `cs`, a part of a text
without a NUL character, from state `st`. -/
def lexRun : LexState → List Char → Except DbError (List Token × LexState)
  | st, [] => .ok ([], st)
  | st, c :: cs =>
    match lexStep st c with
    | .error e => .error e
    | .ok (ts, st1) =>
      match lexRun st1 cs with
      | .error e => .error e
      | .ok (us, st2) => .ok (ts ++ us, st2)

/-- Put the tokens `ts` before the tokens of the rest of the text. -/
def withTokens (ts : List Token) : Except DbError (List Token) → Except DbError (List Token)
  | .ok us => .ok (ts ++ us)
  | .error e => .error e

/-- The comparison `classcode = "c"` for a class code that spells no column. -/
def classIs (c : String) : Expr :=
  .cmp (.column .classcode) .eq (.text c.toList)

/-- The condition `classcode = "c" or classcode = "c1" or ...`, nested to the left. -/
def classAmong (c : String) (cs : List String) : Expr :=
  cs.foldl (fun e c1 => .or e (classIs c1)) (classIs c)

/-- The vocabulary of the spec: the text begins with one of `=`, `!=`, `>`, `<`,
`>=`, `<=`. -/
def beginsWithOperator (s : String) : Bool :=
  ["=", "!=", ">", "<", ">=", "<="].any (fun o => o.toList.isPrefixOf s.toList)

/-- The tokens of `c" or classcode = "c1" or ... "cn` read inside an open
double-quoted token: the class codes separated by `or classcode =`. -/
def codeTokens (c : String) : List String → List Token
  | [] => [.quoted c.toList]
  | c1 :: rest =>
    .quoted c.toList :: .word "or".toList :: .word "classcode".toList :: .cmp .eq
      :: codeTokens c1 rest

/-- The WHERE clause in the grouped form: the alternatives `classcode = "c"` joined
by ` or ` between one pair of parentheses, then ` and is_complete` with the
IsComplete predicate and ` and priority` with the Priority predicate, each only when
the predicate is not empty. -/
def groupedWhere (q : Query) : String :=
  "(" ++ Join (q.Classcodes.map (fun c => "classcode = \"" ++ c ++ "\"")) " or " ++ ")"
    ++ (if q.IsComplete = "" then "" else " and is_complete" ++ q.IsComplete)
    ++ (if q.Priority = "" then "" else " and priority" ++ q.Priority)

/-- The part of the text of `SelectedBy` after the class codes: the closing of the
parenthesis is followed by the two predicates, each when it is not empty. -/
def predicateTail (q : Query) : String :=
  (if q.IsComplete = "" then "" else " and is_complete" ++ q.IsComplete)
    ++ (if q.Priority = "" then "" else " and priority" ++ q.Priority)

/-! ## Keys of the registry -/

theorem mem_keys_iff (db : DB) (k : String × Int) :
    k ∈ keys db ↔ ∃ s ∈ db.rows, keyOf s = k := by
  simp [keys]

theorem keyMatches_iff (classCode : String) (classNo : Int) (s : Schedule) :
    keyMatches classCode classNo s = true ↔ keyOf s = (classCode, classNo) := by
  simp [keyMatches, keyOf]

theorem any_keyMatches_iff (db : DB) (classCode : String) (classNo : Int) :
    db.rows.any (keyMatches classCode classNo) = true ↔ (classCode, classNo) ∈ keys db := by
  simp [keys, List.any_eq_true, keyMatches_iff]

/-- A row update that keeps the key of every row keeps the list of keys. -/
theorem keys_map_of_keyOf (u : Bool) (rows : List Schedule) (f : Schedule → Schedule)
    (hf : ∀ s, keyOf (f s) = keyOf s) :
    keys ⟨u, rows.map f⟩ = keys ⟨u, rows⟩ := by
  simp only [keys, List.map_map]
  exact List.map_congr_left (fun s _ => hf s)

theorem keys_Insert_ok (db : DB) (classCode : String) (classNo : Int) (now : Nat)
    (h : (db.Insert classCode classNo now).2 = none) :
    keys (db.Insert classCode classNo now).1 = keys db ++ [(classCode, classNo)] := by
  unfold DB.Insert at h ⊢
  split
  · rename_i hc; simp [hc] at h
  · simp [keys, keyOf]

theorem keys_Delete (db : DB) (classcode : String) (classno : Int) :
    keys (db.Delete classcode classno).1
      = (keys db).filter (fun k => k ≠ (classcode, classno)) := by
  simp only [DB.Delete, keys, List.filter_map]
  congr 1
  apply List.filter_congr
  intro s _
  by_cases hk : keyMatches classcode classno s = true
  · have := (keyMatches_iff _ _ _).1 hk
    simp [hk, this]
  · have h2 : keyOf s ≠ (classcode, classno) := fun e => hk ((keyMatches_iff _ _ _).2 e)
    simp [hk, h2]

theorem keys_UpdatePriority (db : DB) (classcode : String) (classno : Int) (priority : Int) :
    keys (db.UpdatePriority classcode classno priority).1 = keys db := by
  cases db with
  | mk u rows =>
    exact keys_map_of_keyOf u rows _ (fun s => by split <;> rfl)

theorem negateColumn_keyOf (key : String) (f : Schedule → Schedule)
    (h : negateColumn key = some f) (s : Schedule) : keyOf (f s) = keyOf s := by
  unfold negateColumn at h
  split at h
  · cases h; rfl
  · split at h
    · cases h; rfl
    · split at h
      · cases h; rfl
      · cases h

theorem keys_toggleFactory (db : DB) (key classCode : String) (classNo : Int) :
    keys (db.toggleFactory key classCode classNo).1 = keys db := by
  cases db with
  | mk u rows =>
    unfold DB.toggleFactory
    cases hf : negateColumn key with
    | none => rfl
    | some f =>
      exact keys_map_of_keyOf u rows _ (fun s => by
        split
        · exact negateColumn_keyOf key f hf s
        · rfl)

theorem uniqueKey_run (db : DB) (op : Op) : (op.run db).1.uniqueKey = db.uniqueKey := by
  cases op <;> simp only [Op.run, DB.Insert, DB.Delete, DB.UpdatePriority,
    DB.ToggleIsNotified, DB.ToggleIsMeeting, DB.ToggleIsComplete, DB.toggleFactory]
  · split <;> rfl
  all_goals (try rfl)

theorem keys_run_toggle_or_priority (db : DB) (op : Op)
    (h : ∀ c n t, op ≠ .insert c n t) (h2 : ∀ c n, op ≠ .delete c n) :
    keys (op.run db).1 = keys db := by
  cases op with
  | insert c n t => exact absurd rfl (h c n t)
  | delete c n => exact absurd rfl (h2 c n)
  | updatePriority c n p => exact keys_UpdatePriority db c n p
  | toggleIsNotified c n => exact keys_toggleFactory db _ c n
  | toggleIsMeeting c n => exact keys_toggleFactory db _ c n
  | toggleIsComplete c n => exact keys_toggleFactory db _ c n

/-! ## Delete of a key that no row has -/

/-- C2, as stated, fails: `Delete` of a key that no row has returns `nil`. On the
registry without rows `Delete("1A", 5)` returns no error, and on a registry holding
`("1A", 5)` the first `Delete("1A", 5)` and the one right after it both return no
error. -/
theorem Delete_absent_key_returns_nil :
    ("1A", (5 : Int)) ∉ keys ⟨true, []⟩
      ∧ (DB.Delete ⟨true, []⟩ "1A" 5).2 = none
      ∧ (DB.Delete ⟨true, [⟨"1A", 5, 0, 0, false, false, false⟩]⟩ "1A" 5).2 = none
      ∧ (DB.Delete (DB.Delete ⟨true, [⟨"1A", 5, 0, 0, false, false, false⟩]⟩ "1A" 5).1
          "1A" 5).2 = none := by
  refine ⟨by simp [keys], rfl, rfl, rfl⟩

/-- C2, amended: for every registry and every key that no row has, `Delete` returns
no error and leaves the registry as it was; and for every registry and key, after a
`Delete` no row has the key and a second `Delete` of it returns no error and changes
nothing. -/
theorem Delete_absent_key_is_silent (db : DB) (classcode : String) (classno : Int)
    (h : (classcode, classno) ∉ keys db) :
    db.Delete classcode classno = (db, none)
      ∧ ∀ db0 : DB, (db0.Delete classcode classno).2 = none
          ∧ (classcode, classno) ∉ keys (db0.Delete classcode classno).1
          ∧ (db0.Delete classcode classno).1.Delete classcode classno
              = ((db0.Delete classcode classno).1, none) := by
  have absent : ∀ d : DB, (classcode, classno) ∉ keys d →
      d.Delete classcode classno = (d, none) := by
    intro d hd
    have hrows : d.rows.filter (fun s => !keyMatches classcode classno s) = d.rows := by
      rw [List.filter_eq_self]
      intro s hs
      have hne : keyMatches classcode classno s ≠ true := by
        rw [Ne, keyMatches_iff]
        intro hk
        exact hd ((mem_keys_iff d _).2 ⟨s, hs, hk⟩)
      simpa using hne
    simp [DB.Delete, hrows]
  refine ⟨absent db h, fun db0 => ?_⟩
  have gone : (classcode, classno) ∉ keys (db0.Delete classcode classno).1 := by
    rw [keys_Delete]
    simp
  exact ⟨rfl, gone, absent _ gone⟩

/-- The amended C2 at the registry without rows and the key `("1A", 5)`. -/
theorem Delete_absent_key_is_silent_witness :
    DB.Delete ⟨true, []⟩ "1A" 5 = (⟨true, []⟩, none)
      ∧ ∀ db0 : DB, (db0.Delete "1A" 5).2 = none
          ∧ ("1A", (5 : Int)) ∉ keys (db0.Delete "1A" 5).1
          ∧ (db0.Delete "1A" 5).1.Delete "1A" 5 = ((db0.Delete "1A" 5).1, none) :=
  Delete_absent_key_is_silent ⟨true, []⟩ "1A" 5 (by simp [keys])

/-! ## Toggles -/

theorem afterToggles_succ (n : Nat) (b : Bool) :
    afterToggles (n + 1) b = afterToggles n (!b) := by
  unfold afterToggles
  rcases Nat.mod_two_eq_zero_or_one n with h | h
  · have : (n + 1) % 2 = 1 := by omega
    simp [h, this]
  · have : (n + 1) % 2 = 0 := by omega
    simp [h, this]

/-- Calling a function that rewrites the rows with `g n` after `n` calls. -/
theorem callTimes_map (f : DB → DB × Option DbError) (g : Nat → Schedule → Schedule)
    (step : Schedule → Schedule)
    (hf : ∀ d : DB, f d = ({ d with rows := d.rows.map step }, none))
    (h0 : ∀ s, g 0 s = s) (hs : ∀ n s, g (n + 1) s = g n (step s)) :
    ∀ (n : Nat) (db : DB),
      callTimes f n db = some { db with rows := db.rows.map (g n) } := by
  intro n
  induction n with
  | zero =>
    intro db
    have : db.rows.map (g 0) = db.rows := by
      rw [List.map_congr_left (fun s _ => h0 s)]; simp
    simp [callTimes, this]
  | succ n ih =>
    intro db
    simp only [callTimes, hf, ih, List.map_map]
    congr 2
    exact List.map_congr_left (fun s _ => (hs n s).symm)

/-- C3: for every registry, key and number `n`, calling `ToggleIsNotified` (and
likewise `ToggleIsMeeting`, `ToggleIsComplete`) `n` times in sequence on the key
succeeds each time and leaves a registry that differs from the first one only in
that flag of the rows with the key, which holds its first value when `n` is even and
the negation when `n` is odd; two calls give back the registry itself. -/
theorem toggle_n_times_parity (db : DB) (classCode : String) (classNo : Int) (n : Nat) :
    (callTimes (fun d => d.ToggleIsNotified classCode classNo) n db
        = some { db with rows := db.rows.map (fun s =>
            if keyMatches classCode classNo s
            then { s with IsNotified := afterToggles n s.IsNotified } else s) }
      ∧ callTimes (fun d => d.ToggleIsNotified classCode classNo) 2 db = some db)
    ∧ (callTimes (fun d => d.ToggleIsMeeting classCode classNo) n db
        = some { db with rows := db.rows.map (fun s =>
            if keyMatches classCode classNo s
            then { s with IsMeeting := afterToggles n s.IsMeeting } else s) }
      ∧ callTimes (fun d => d.ToggleIsMeeting classCode classNo) 2 db = some db)
    ∧ (callTimes (fun d => d.ToggleIsComplete classCode classNo) n db
        = some { db with rows := db.rows.map (fun s =>
            if keyMatches classCode classNo s
            then { s with IsComplete := afterToggles n s.IsComplete } else s) }
      ∧ callTimes (fun d => d.ToggleIsComplete classCode classNo) 2 db = some db) := by
  have key : ∀ (f : DB → DB × Option DbError) (g : Nat → Schedule → Schedule)
      (step : Schedule → Schedule),
      (∀ d : DB, f d = ({ d with rows := d.rows.map step }, none)) →
      (∀ s, g 0 s = s) → (∀ m s, g (m + 1) s = g m (step s)) → (∀ s, g 2 s = s) →
      callTimes f n db = some { db with rows := db.rows.map (g n) }
        ∧ callTimes f 2 db = some db := by
    intro f g step hf h0 hs h2
    refine ⟨callTimes_map f g step hf h0 hs n db, ?_⟩
    rw [callTimes_map f g step hf h0 hs 2 db]
    have : db.rows.map (g 2) = db.rows := by
      rw [List.map_congr_left (fun s _ => h2 s)]; simp
    simp [this]
  refine ⟨?_, ?_, ?_⟩
  · apply key _ (fun m s => if keyMatches classCode classNo s
        then { s with IsNotified := afterToggles m s.IsNotified } else s)
      (fun s => if keyMatches classCode classNo s
        then { s with IsNotified := !s.IsNotified } else s)
    · intro d; rfl
    · intro s; split <;> simp [afterToggles]
    · intro m s
      by_cases hk : keyMatches classCode classNo s = true
      · have hk2 : keyMatches classCode classNo { s with IsNotified := !s.IsNotified } = true := hk
        simp only [hk, hk2, if_true, afterToggles_succ]
      · simp [hk]
    · intro s; split <;> simp [afterToggles]
  · apply key _ (fun m s => if keyMatches classCode classNo s
        then { s with IsMeeting := afterToggles m s.IsMeeting } else s)
      (fun s => if keyMatches classCode classNo s
        then { s with IsMeeting := !s.IsMeeting } else s)
    · intro d; rfl
    · intro s; split <;> simp [afterToggles]
    · intro m s
      by_cases hk : keyMatches classCode classNo s = true
      · have hk2 : keyMatches classCode classNo { s with IsMeeting := !s.IsMeeting } = true := hk
        simp only [hk, hk2, if_true, afterToggles_succ]
      · simp [hk]
    · intro s; split <;> simp [afterToggles]
  · apply key _ (fun m s => if keyMatches classCode classNo s
        then { s with IsComplete := afterToggles m s.IsComplete } else s)
      (fun s => if keyMatches classCode classNo s
        then { s with IsComplete := !s.IsComplete } else s)
    · intro d; rfl
    · intro s; split <;> simp [afterToggles]
    · intro m s
      by_cases hk : keyMatches classCode classNo s = true
      · have hk2 : keyMatches classCode classNo { s with IsComplete := !s.IsComplete } = true := hk
        simp only [hk, hk2, if_true, afterToggles_succ]
      · simp [hk]
    · intro s; split <;> simp [afterToggles]

/-! ## Insert on a stored key, and uniqueness of keys -/

theorem nodup_keys_run (db : DB) (op : Op) (hu : db.uniqueKey = true)
    (hn : (keys db).Nodup) : (keys (op.run db).1).Nodup := by
  by_cases hi : ∃ c n t, op = .insert c n t
  · obtain ⟨c, n, t, rfl⟩ := hi
    by_cases hmem : (c, n) ∈ keys db
    · have : db.Insert c n t = (db, some DbError.constraint) := by
        simp [DB.Insert, hu, (any_keyMatches_iff db c n).2 hmem]
      simpa [Op.run, this] using hn
    · have hok : (db.Insert c n t).2 = none := by
        have hany : db.rows.any (keyMatches c n) = false := by
          rw [Bool.eq_false_iff, Ne, any_keyMatches_iff]; exact hmem
        simp [DB.Insert, hany]
      simp only [Op.run, keys_Insert_ok db c n t hok]
      exact List.Nodup.append hn (List.nodup_singleton _) (by simpa using hmem)
  · by_cases hd : ∃ c n, op = .delete c n
    · obtain ⟨c, n, rfl⟩ := hd
      simp only [Op.run, keys_Delete]
      exact hn.filter _
    · rw [keys_run_toggle_or_priority db op (fun c n t e => hi ⟨c, n, t, e⟩)
        (fun c n e => hd ⟨c, n, e⟩)]
      exact hn

theorem nodup_keys_runOps (ops : List Op) :
    ∀ db : DB, db.uniqueKey = true → (keys db).Nodup → (keys (runOps db ops)).Nodup := by
  induction ops with
  | nil => intro db _ hn; exact hn
  | cons op rest ih =>
    intro db hu hn
    exact ih _ ((uniqueKey_run db op).trans hu) (nodup_keys_run db op hu hn)

/-- C7: for every registry whose table declares the key unique and that holds a row
with key `(classCode, classNo)`, `Insert(classCode, classNo)` returns the constraint
error of the engine and leaves the registry as it was; and in every registry reached
from the empty one by calls of `Insert`, `Delete`, `UpdatePriority` and the three
toggles, whatever each call returned, no two rows share a key. -/
theorem Insert_stored_key_conflict (db : DB) (classCode : String) (classNo : Int)
    (now : Nat) (hu : db.uniqueKey = scheduleKeyIsUnique)
    (h : (classCode, classNo) ∈ keys db) :
    db.Insert classCode classNo now = (db, some DbError.constraint)
      ∧ ∀ ops : List Op, (keys (runOps emptyRegistry ops)).Nodup := by
  constructor
  · have hu1 : db.uniqueKey = true := hu
    simp [DB.Insert, hu1, (any_keyMatches_iff db classCode classNo).2 h]
  · intro ops
    exact nodup_keys_runOps ops emptyRegistry rfl (by simp [keys, emptyRegistry])

/-- C7 at the registry that holds `("1A", 5)`: a second `Insert("1A", 5)` is
refused. -/
theorem Insert_stored_key_conflict_witness :
    DB.Insert ⟨true, [⟨"1A", 5, 0, 0, false, false, false⟩]⟩ "1A" 5 7
        = (⟨true, [⟨"1A", 5, 0, 0, false, false, false⟩]⟩, some DbError.constraint)
      ∧ ∀ ops : List Op, (keys (runOps emptyRegistry ops)).Nodup :=
  Insert_stored_key_conflict ⟨true, [⟨"1A", 5, 0, 0, false, false, false⟩]⟩ "1A" 5 7 rfl
    (by simp [keys, keyOf])

/-! ## The keys present after a sequence of calls -/

theorem insertedNotDeleted_cons (k : String × Int) (op : Op) (rest : List Op) :
    InsertedNotDeleted k (op :: rest) ↔
      (∃ now, op = .insert k.1 k.2 now ∧ Op.delete k.1 k.2 ∉ rest)
        ∨ InsertedNotDeleted k rest := by
  constructor
  · rintro ⟨pre, post, now, heq, hnd⟩
    cases pre with
    | nil =>
      simp only [List.nil_append, List.cons.injEq] at heq
      exact Or.inl ⟨now, heq.1, heq.2 ▸ hnd⟩
    | cons p pre1 =>
      simp only [List.cons_append, List.cons.injEq] at heq
      exact Or.inr ⟨pre1, post, now, heq.2, hnd⟩
  · rintro (⟨now, rfl, hnd⟩ | ⟨pre, post, now, heq, hnd⟩)
    · exact ⟨[], rest, now, rfl, hnd⟩
    · exact ⟨op :: pre, post, now, by simp [heq], hnd⟩

theorem mem_keys_run (db : DB) (op : Op) (k : String × Int)
    (hok : (op.run db).2 = none) :
    k ∈ keys (op.run db).1 ↔
      (∃ now, op = .insert k.1 k.2 now) ∨ (k ∈ keys db ∧ op ≠ .delete k.1 k.2) := by
  by_cases hi : ∃ c n t, op = .insert c n t
  · obtain ⟨c, n, t, rfl⟩ := hi
    simp only [Op.run] at hok ⊢
    rw [keys_Insert_ok db c n t hok]
    simp only [List.mem_append, List.mem_singleton, Op.insert.injEq, ne_eq,
      not_false_eq_true, and_true, reduceCtorEq]
    constructor
    · rintro (h | h)
      · exact Or.inr h
      · exact Or.inl ⟨t, by rw [h], by rw [h], rfl⟩
    · rintro (⟨_, h1, h2, _⟩ | h)
      · exact Or.inr (Prod.ext h1.symm h2.symm)
      · exact Or.inl h
  · by_cases hd : ∃ c n, op = .delete c n
    · obtain ⟨c, n, rfl⟩ := hd
      simp only [Op.run, keys_Delete, List.mem_filter, reduceCtorEq, exists_false,
        false_or, Op.delete.injEq, ne_eq, decide_eq_true_eq, not_and]
      constructor
      · rintro ⟨h1, h2⟩
        exact ⟨h1, fun e1 e2 => h2 (Prod.ext e1.symm e2.symm)⟩
      · rintro ⟨h1, h2⟩
        exact ⟨h1, fun e => h2 (by rw [e]) (by rw [e])⟩
    · rw [keys_run_toggle_or_priority db op (fun c n t e => hi ⟨c, n, t, e⟩)
        (fun c n e => hd ⟨c, n, e⟩)]
      constructor
      · intro h
        exact Or.inr ⟨h, fun e => hd ⟨_, _, e⟩⟩
      · rintro (⟨t, e⟩ | ⟨h, _⟩)
        · exact absurd ⟨_, _, _, e⟩ hi
        · exact h

theorem mem_keys_runSuccessful (ops : List Op) (k : String × Int) :
    ∀ db0 db : DB, runSuccessful db0 ops = some db →
      (k ∈ keys db ↔
        InsertedNotDeleted k ops ∨ (k ∈ keys db0 ∧ Op.delete k.1 k.2 ∉ ops)) := by
  induction ops with
  | nil =>
    intro db0 db h
    simp only [runSuccessful, Option.some.injEq] at h
    subst h
    have : ¬ InsertedNotDeleted k [] := by
      rintro ⟨pre, post, now, heq, _⟩
      cases pre <;> simp at heq
    simp [this]
  | cons op rest ih =>
    intro db0 db h
    simp only [runSuccessful] at h
    have hrun : op.run db0 = ((op.run db0).1, (op.run db0).2) := rfl
    cases hres : (op.run db0).2 with
    | some e => rw [hrun, hres] at h; simp at h
    | none =>
      rw [hrun, hres] at h
      simp only at h
      rw [ih _ _ h, insertedNotDeleted_cons, mem_keys_run db0 op k hres]
      simp only [List.mem_cons, not_or]
      constructor
      · rintro (h1 | ⟨(⟨now, e⟩ | ⟨h2, h3⟩), h4⟩)
        · exact Or.inl (Or.inr h1)
        · exact Or.inl (Or.inl ⟨now, e, h4⟩)
        · exact Or.inr ⟨h2, fun e => h3 e.symm, h4⟩
      · rintro ((⟨now, e, h4⟩ | h1) | ⟨h2, h3, h4⟩)
        · exact Or.inr ⟨Or.inl ⟨now, e⟩, h4⟩
        · exact Or.inl h1
        · exact Or.inr ⟨Or.inr ⟨h2, fun e => h3 e.symm⟩, h4⟩

/-- C8: for every sequence of calls that all return `nil`, run on a registry without
rows (whichever way the table was declared), a key is present in the resulting
registry exactly when the sequence inserted it and did not delete it afterwards.
A successful `Insert(k)` makes `k` present and changes the presence of no other key;
`Delete(k)` makes `k` absent and changes the presence of no other key. -/
theorem keys_are_inserted_not_deleted (u : Bool) (ops : List Op) (db : DB)
    (h : runSuccessful ⟨u, []⟩ ops = some db) :
    (∀ k, k ∈ keys db ↔ InsertedNotDeleted k ops)
      ∧ (∀ (d : DB) (classCode : String) (classNo : Int) (now : Nat),
          (d.Insert classCode classNo now).2 = none →
          ∀ k, k ∈ keys (d.Insert classCode classNo now).1 ↔
            k = (classCode, classNo) ∨ k ∈ keys d)
      ∧ (∀ (d : DB) (classcode : String) (classno : Int),
          (d.Delete classcode classno).2 = none
            ∧ ∀ k, k ∈ keys (d.Delete classcode classno).1 ↔
              k ≠ (classcode, classno) ∧ k ∈ keys d) := by
  refine ⟨fun k => ?_, ?_, ?_⟩
  · rw [mem_keys_runSuccessful ops k _ _ h]
    simp [keys]
  · intro d c n t hok k
    rw [keys_Insert_ok d c n t hok]
    simp [or_comm]
  · intro d c n
    refine ⟨rfl, fun k => ?_⟩
    rw [keys_Delete]
    simp [and_comm]

/-- C8 on the sequence `Insert("1A", 5)`, `Insert("2B", 1)`, `Delete("1A", 5)`. -/
theorem keys_are_inserted_not_deleted_witness :
    (∀ k, k ∈ keys ⟨true, [⟨"2B", 1, 8, 0, false, false, false⟩]⟩ ↔
        InsertedNotDeleted k [.insert "1A" 5 7, .insert "2B" 1 8, .delete "1A" 5])
      ∧ (∀ (d : DB) (classCode : String) (classNo : Int) (now : Nat),
          (d.Insert classCode classNo now).2 = none →
          ∀ k, k ∈ keys (d.Insert classCode classNo now).1 ↔
            k = (classCode, classNo) ∨ k ∈ keys d)
      ∧ (∀ (d : DB) (classcode : String) (classno : Int),
          (d.Delete classcode classno).2 = none
            ∧ ∀ k, k ∈ keys (d.Delete classcode classno).1 ↔
              k ≠ (classcode, classno) ∧ k ∈ keys d) :=
  keys_are_inserted_not_deleted true
    [.insert "1A" 5 7, .insert "2B" 1 8, .delete "1A" 5]
    ⟨true, [⟨"2B", 1, 8, 0, false, false, false⟩]⟩ rfl

/-! ## What a toggle and a priority update leave alone -/

theorem forall₂_map_self (rows : List Schedule) (f : Schedule → Schedule) :
    List.Forall₂ (fun s t => t = f s) rows (rows.map f) := by
  induction rows with
  | nil => exact List.Forall₂.nil
  | cons s rest ih => exact List.Forall₂.cons rfl ih

/-- C9: for every registry and key, each toggle and `UpdatePriority` return no
error and keep the rows in place, one for one: a row with the key comes out with
only the toggled flag negated (or only the priority replaced), with the same key,
`ArrivedAt` and other fields; every other row comes out as it was. The keys present
are the same, so a toggle of `IsComplete` removes no row. -/
theorem toggle_and_priority_frame (db : DB) (classCode : String) (classNo : Int)
    (priority : Int) :
    ((db.ToggleIsNotified classCode classNo).2 = none
      ∧ List.Forall₂ (fun s t => t = if keyMatches classCode classNo s
          then { s with IsNotified := !s.IsNotified } else s)
        db.rows (db.ToggleIsNotified classCode classNo).1.rows
      ∧ keys (db.ToggleIsNotified classCode classNo).1 = keys db)
    ∧ ((db.ToggleIsMeeting classCode classNo).2 = none
      ∧ List.Forall₂ (fun s t => t = if keyMatches classCode classNo s
          then { s with IsMeeting := !s.IsMeeting } else s)
        db.rows (db.ToggleIsMeeting classCode classNo).1.rows
      ∧ keys (db.ToggleIsMeeting classCode classNo).1 = keys db)
    ∧ ((db.ToggleIsComplete classCode classNo).2 = none
      ∧ List.Forall₂ (fun s t => t = if keyMatches classCode classNo s
          then { s with IsComplete := !s.IsComplete } else s)
        db.rows (db.ToggleIsComplete classCode classNo).1.rows
      ∧ keys (db.ToggleIsComplete classCode classNo).1 = keys db)
    ∧ ((db.UpdatePriority classCode classNo priority).2 = none
      ∧ List.Forall₂ (fun s t => t = if keyMatches classCode classNo s
          then { s with Priority := priority } else s)
        db.rows (db.UpdatePriority classCode classNo priority).1.rows
      ∧ keys (db.UpdatePriority classCode classNo priority).1 = keys db) := by
  refine ⟨⟨rfl, ?_, keys_toggleFactory db _ _ _⟩, ⟨rfl, ?_, keys_toggleFactory db _ _ _⟩,
    ⟨rfl, ?_, keys_toggleFactory db _ _ _⟩, ⟨rfl, ?_, keys_UpdatePriority db _ _ _⟩⟩
  · exact forall₂_map_self db.rows _
  · exact forall₂_map_self db.rows _
  · exact forall₂_map_self db.rows _
  · exact forall₂_map_self db.rows _

/-! ## Handlers: one message after a successful mutation, none otherwise -/

theorem readClassCodeAndClassNo_none {ε : Type} (r : Request)
    (h : Atoi (r.vars "classno") = none) :
    (readClassCodeAndClassNo r : List (Event ε) × String × Int × Option (HandlerError ε))
      = ([.printError (some .atoi) StatusBadRequest], "", 0, some .atoi) := by
  simp [readClassCodeAndClassNo, h]

theorem readClassCodeAndClassNo_some {ε : Type} (r : Request) (n : Int)
    (h : Atoi (r.vars "classno") = some n) :
    (readClassCodeAndClassNo r : List (Event ε) × String × Int × Option (HandlerError ε))
      = ([], r.vars "classcode", n, none) := by
  simp [readClassCodeAndClassNo, h]

theorem readRriority_none {ε : Type} (r : Request) (h : Atoi (r.vars "priority") = none) :
    (readRriority r : Int × Option (HandlerError ε)) = (0, some .atoi) := by
  simp [readRriority, h]

theorem readRriority_some {ε : Type} (r : Request) (p : Int)
    (h : Atoi (r.vars "priority") = some p) :
    (readRriority r : Int × Option (HandlerError ε)) = (p, none) := by
  simp [readRriority, h]

/-- The shape shared by the mutation handlers after the parameters are read. -/
theorem contract_of_call {σ ε : Type} (classCode message : String)
    (res : σ × Option ε) (result : σ × List (Event ε))
    (h : result = match res with
        | (st1, some err) =>
          (st1, [] ++ [.storeReturned (some err),
            .printError (some (.store err)) StatusBadRequest])
        | (st1, none) =>
          (st1, [] ++ [.storeReturned none, .printJSON message,
            .broadcast classCode.toUTF8])) :
    PublishContract result classCode (some res) := by
  obtain ⟨st1, err⟩ := res
  subst h
  cases err with
  | none =>
    exact ⟨rfl, [], [.printJSON message, .broadcast classCode.toUTF8], rfl, rfl, rfl⟩
  | some e => simp [PublishContract, broadcasts]

/-- C1: for every store, request and state of the store, each of the six mutation
handlers keeps the publish contract: when the parameters parse and the method of the
store returns `nil`, the handler sends exactly one message on `Broadcast`, the bytes
of the class code of the request, after the method returned; when a parameter does
not parse or the method returns an error, it sends nothing. -/
theorem handlers_keep_publish_contract {σ ε : Type} (s : ScheduleStore σ ε)
    (r : Request) (st : σ) :
    PublishContract (AddScheduleHandler s r st) (r.vars "classcode")
        ((Atoi (r.vars "classno")).map (fun n => s.Insert st (r.vars "classcode") n))
      ∧ PublishContract (RemoveScheduleHandler s r st) (r.vars "classcode")
        ((Atoi (r.vars "classno")).map (fun n => s.Delete st (r.vars "classcode") n))
      ∧ PublishContract (UpdatePriorityHandler s r st) (r.vars "classcode")
        ((Atoi (r.vars "priority")).bind (fun p =>
          (Atoi (r.vars "classno")).map (fun n =>
            s.UpdatePriority st (r.vars "classcode") n p)))
      ∧ PublishContract (ToggleIsNotifiedHandler s r st) (r.vars "classcode")
        ((Atoi (r.vars "classno")).map (fun n =>
          s.ToggleIsNotified st (r.vars "classcode") n))
      ∧ PublishContract (ToggleIsMeetingHandler s r st) (r.vars "classcode")
        ((Atoi (r.vars "classno")).map (fun n =>
          s.ToggleIsMeeting st (r.vars "classcode") n))
      ∧ PublishContract (ToggleIsCompleteHandler s r st) (r.vars "classcode")
        ((Atoi (r.vars "classno")).map (fun n =>
          s.ToggleIsComplete st (r.vars "classcode") n)) := by
  have failed : ∀ (tail : List (Event ε)), broadcasts tail = [] →
      PublishContract (st, tail) (r.vars "classcode") none := fun _ h => h
  refine ⟨?_, ?_, ?_, ?_, ?_, ?_⟩
  · unfold AddScheduleHandler
    cases hn : Atoi (r.vars "classno") with
    | none => rw [readClassCodeAndClassNo_none r hn]; exact failed _ rfl
    | some n =>
      rw [readClassCodeAndClassNo_some r n hn]
      exact contract_of_call _ _ _ _ rfl
  · unfold RemoveScheduleHandler
    cases hn : Atoi (r.vars "classno") with
    | none => rw [readClassCodeAndClassNo_none r hn]; exact failed _ rfl
    | some n =>
      rw [readClassCodeAndClassNo_some r n hn]
      exact contract_of_call _ _ _ _ rfl
  · unfold UpdatePriorityHandler
    cases hp : Atoi (r.vars "priority") with
    | none => rw [readRriority_none r hp]; exact failed _ rfl
    | some p =>
      rw [readRriority_some r p hp]
      cases hn : Atoi (r.vars "classno") with
      | none => rw [readClassCodeAndClassNo_none r hn]; exact failed _ rfl
      | some n =>
        rw [readClassCodeAndClassNo_some r n hn]
        exact contract_of_call _ _ _ _ rfl
  · unfold ToggleIsNotifiedHandler getToggleFunc
    cases hn : Atoi (r.vars "classno") with
    | none => rw [readClassCodeAndClassNo_none r hn]; exact failed _ rfl
    | some n =>
      rw [readClassCodeAndClassNo_some r n hn]
      exact contract_of_call _ _ _ _ rfl
  · unfold ToggleIsMeetingHandler getToggleFunc
    cases hn : Atoi (r.vars "classno") with
    | none => rw [readClassCodeAndClassNo_none r hn]; exact failed _ rfl
    | some n =>
      rw [readClassCodeAndClassNo_some r n hn]
      exact contract_of_call _ _ _ _ rfl
  · unfold ToggleIsCompleteHandler getToggleFunc
    cases hn : Atoi (r.vars "classno") with
    | none => rw [readClassCodeAndClassNo_none r hn]; exact failed _ rfl
    | some n =>
      rw [readClassCodeAndClassNo_some r n hn]
      exact contract_of_call _ _ _ _ rfl

/-! ## Reading the text of `SelectedBy` -/

theorem lexRun_head :
    lexRun .start "SELECT * FROM Schedule WHERE (classcode = \"".toList
      = .ok ([.word "select".toList, .star, .word "from".toList, .word "schedule".toList,
          .word "where".toList, .lparen, .word "classcode".toList, .cmp .eq],
          .inQuoted []) := by
  rfl

theorem lexRun_sep (acc : List Char) :
    lexRun (.inQuoted acc) "\" or classcode = \"".toList
      = .ok ([.quoted acc, .word "or".toList, .word "classcode".toList, .cmp .eq],
          .inQuoted []) := by
  rfl

theorem lexRun_close (acc : List Char) :
    lexRun (.inQuoted acc) "\")".toList = .ok ([.quoted acc, .rparen], .start) := by
  rfl

theorem toList_append (a b : String) : (a ++ b).toList = a.toList ++ b.toList := by
  simp

theorem nul_not_mem_head :
    nul ∉ "SELECT * FROM Schedule WHERE (classcode = \"".toList := by
  decide

theorem nul_not_mem_sep : nul ∉ "\" or classcode = \"".toList := by
  decide

theorem nul_not_mem_close : nul ∉ "\")".toList := by
  decide

/-- Reading a text in two parts, the first of them without a NUL character. -/
theorem lex_append (a b : List Char) :
    ∀ (st st1 : LexState) (ts : List Token), nul ∉ a →
      lexRun st a = .ok (ts, st1) →
      lex st (a ++ b) = withTokens ts (lex st1 b) := by
  induction a with
  | nil =>
    intro st st1 ts _ h1
    simp only [lexRun, Except.ok.injEq, Prod.mk.injEq] at h1
    obtain ⟨rfl, rfl⟩ := h1
    simp only [List.nil_append]
    cases hl : lex st b <;> simp [withTokens]
  | cons c cs ih =>
    intro st st1 ts hn h1
    have hc : c ≠ nul := fun e => hn (by simp [e])
    have hcs : nul ∉ cs := fun e => hn (by simp [e])
    simp only [lexRun] at h1
    simp only [lex, List.cons_append, hc, if_false]
    cases hs : lexStep st c with
    | error e => simp [hs] at h1
    | ok p =>
      obtain ⟨ts0, st0⟩ := p
      simp only [hs] at h1 ⊢
      cases hr : lexRun st0 cs with
      | error e => simp [hr] at h1
      | ok q =>
        obtain ⟨ts1, st3⟩ := q
        simp only [hr, Except.ok.injEq, Prod.mk.injEq] at h1
        obtain ⟨rfl, rfl⟩ := h1
        have hi := ih st0 st3 ts1 hcs hr
        simp only [List.append_eq] at hi ⊢
        rw [hi]
        cases hl : lex st3 b <;> simp [withTokens]

/-- Reading a class code inside a double-quoted token: a NUL in the class code ends
the text with the token open. -/
theorem lex_inQuoted (c rest : List Char) (h : dq ∉ c) :
    ∀ acc : List Char,
      (nul ∈ c → lex (.inQuoted acc) (c ++ rest) = .error .malformed)
        ∧ (nul ∉ c → lex (.inQuoted acc) (c ++ rest) = lex (.inQuoted (acc ++ c)) rest) := by
  induction c with
  | nil => intro acc; simp
  | cons x xs ih =>
    intro acc
    have hx : x ≠ dq := fun e => h (by simp [e])
    have hxs : dq ∉ xs := fun e => h (by simp [e])
    by_cases hn : x = nul
    · constructor
      · intro _
        simp only [List.cons_append, lex, hn, if_true, lexEnd]
      · intro h2
        exact absurd (by simp [hn]) h2
    · have step : lex (.inQuoted acc) (x :: xs ++ rest)
          = lex (.inQuoted (acc ++ [x])) (xs ++ rest) := by
        simp only [List.cons_append, lex, hn, if_false, lexStep, hx]
        cases hl : lex (.inQuoted (acc ++ [x])) (xs ++ rest) <;> simp
      obtain ⟨ih1, ih2⟩ := ih hxs (acc ++ [x])
      constructor
      · intro h1
        have : nul ∈ xs := by
          rcases List.mem_cons.1 h1 with e | e
          · exact absurd e.symm hn
          · exact e
        rw [step, ih1 this]
      · intro h2
        have : nul ∉ xs := fun e => h2 (by simp [e])
        rw [step, ih2 this]
        simp

/-- Reading the joined class codes, the closing `")` and the rest of the text from
inside the first double-quoted token. A NUL in a class code ends the text inside a
double-quoted token. -/
theorem lex_codes (tailChars : List Char) (cs : List String) :
    ∀ c : String, (∀ x ∈ c :: cs, dq ∉ x.toList) →
      ((∃ x ∈ c :: cs, nul ∈ x.toList) →
          lex (.inQuoted [])
              ((Join (c :: cs) "\" or classcode = \"").toList ++ ("\")".toList ++ tailChars))
            = .error .malformed)
        ∧ ((∀ x ∈ c :: cs, nul ∉ x.toList) →
          lex (.inQuoted [])
              ((Join (c :: cs) "\" or classcode = \"").toList ++ ("\")".toList ++ tailChars))
            = withTokens (codeTokens c cs ++ [.rparen]) (lex .start tailChars)) := by
  induction cs with
  | nil =>
    intro c h
    have hc : dq ∉ c.toList := h c (by simp)
    obtain ⟨h1, h2⟩ := lex_inQuoted c.toList ("\")".toList ++ tailChars) hc []
    constructor
    · rintro ⟨x, hx, hn⟩
      have : x = c := by simpa using hx
      subst this
      simpa [Join] using h1 hn
    · intro hn
      have hcn : nul ∉ c.toList := hn c (by simp)
      have h3 := lex_append "\")".toList tailChars _ _ _ nul_not_mem_close
        (lexRun_close ([] ++ c.toList))
      simp only [Join, codeTokens]
      rw [h2 hcn, h3]
      simp
  | cons c1 rest ih =>
    intro c h
    have hc : dq ∉ c.toList := h c (by simp)
    obtain ⟨ih1, ih2⟩ := ih c1 (fun x hx => h x (by simp at hx ⊢; exact Or.inr hx))
    have hjoin : (Join (c :: c1 :: rest) "\" or classcode = \"").toList
          ++ ("\")".toList ++ tailChars)
        = c.toList ++ ("\" or classcode = \"".toList
            ++ ((Join (c1 :: rest) "\" or classcode = \"").toList
              ++ ("\")".toList ++ tailChars))) := by
      simp only [Join, toList_append, List.append_assoc]
    obtain ⟨h1, h2⟩ := lex_inQuoted c.toList ("\" or classcode = \"".toList
            ++ ((Join (c1 :: rest) "\" or classcode = \"").toList
              ++ ("\")".toList ++ tailChars))) hc []
    have h3 := lex_append "\" or classcode = \"".toList
      ((Join (c1 :: rest) "\" or classcode = \"").toList ++ ("\")".toList ++ tailChars))
      _ _ _ nul_not_mem_sep (lexRun_sep ([] ++ c.toList))
    rw [hjoin]
    constructor
    · rintro ⟨x, hx, hn⟩
      by_cases hcn : nul ∈ c.toList
      · exact h1 hcn
      · have hx1 : x ∈ c1 :: rest := by
          rcases List.mem_cons.1 hx with e | e
          · subst e; exact absurd hn hcn
          · exact e
        rw [h2 hcn, h3, ih1 ⟨x, hx1, hn⟩]
        rfl
    · intro hn
      have hcn : nul ∉ c.toList := hn c (by simp)
      rw [h2 hcn, h3, ih2 (fun x hx => hn x (by simp at hx ⊢; exact Or.inr hx))]
      simp only [codeTokens, List.nil_append]
      cases lex .start tailChars <;> simp [withTokens]

/-! ## Parsing and evaluating the condition of `SelectedBy` -/

theorem operandOf_code (c : String) (h : spellsColumn c = false) :
    operandOf (.quoted c.toList) = .ok (.text c.toList) := by
  unfold spellsColumn at h
  cases hc : columnOf (c.toList.map Char.toLower) with
  | none => simp only [operandOf, hc]
  | some x => rw [hc] at h; cases h

theorem operandOf_classcode :
    operandOf (.word "classcode".toList) = .ok (.column .classcode) := by
  rfl

theorem parseExpr_first (stack : List (Option Expr × Option Expr)) (d : Option Expr)
    (c : String) (h : spellsColumn c = false) (rest : List Token) :
    parseExpr stack (.atom d none)
        (.word "classcode".toList :: .cmp .eq :: .quoted c.toList :: rest)
      = parseExpr stack (.oper d (classIs c)) rest := by
  rw [parseExpr]
  · simp only [operandOf_classcode, operandOf_code c h]
    rfl
  · intro e; cases e

theorem parseExpr_or (stack : List (Option Expr × Option Expr)) (d : Option Expr)
    (e : Expr) (rest : List Token) :
    parseExpr stack (.oper d e) (.word "or".toList :: rest)
      = parseExpr stack (.atom (some (orWith d e)) none) rest := by
  rw [parseExpr]
  rfl

theorem parseExpr_rparen (stack : List (Option Expr × Option Expr))
    (d1 c1 d : Option Expr) (e : Expr) (rest : List Token) :
    parseExpr ((d1, c1) :: stack) (.oper d e) (.rparen :: rest)
      = parseExpr stack (.oper d1 (andWith c1 (orWith d e))) rest := by
  rw [parseExpr]

theorem parseExpr_codes (stack : List (Option Expr × Option Expr)) (d1 c1 : Option Expr)
    (rest : List Token) :
    ∀ (cs : List String) (c : String) (d : Option Expr),
      (∀ x ∈ c :: cs, spellsColumn x = false) →
      parseExpr ((d1, c1) :: stack) (.atom d none)
          (.word "classcode".toList :: .cmp .eq :: (codeTokens c cs ++ .rparen :: rest))
        = parseExpr stack
            (.oper d1 (andWith c1
              (cs.foldl (fun e x => .or e (classIs x)) (orWith d (classIs c))))) rest := by
  intro cs
  induction cs with
  | nil =>
    intro c d h
    simp only [codeTokens, List.cons_append, List.nil_append, List.foldl_nil]
    rw [parseExpr_first _ _ c (h c (by simp)), parseExpr_rparen]
  | cons c2 r ih =>
    intro c d h
    simp only [codeTokens, List.cons_append, List.foldl_cons]
    rw [parseExpr_first _ _ c (h c (by simp)), parseExpr_or,
      ih c2 _ (fun x hx => h x (by simp at hx ⊢; exact Or.inr hx))]
    rfl

theorem evalExpr_classIs (s : Schedule) (c : String) :
    evalExpr s (classIs c) = .ok (decide (s.ClassCode = c)) := by
  have : (s.ClassCode.toList == c.toList) = decide (s.ClassCode = c) := by
    rw [beq_eq_decide]
    exact decide_eq_decide.2 ⟨fun e => String.ext e, fun e => congrArg String.toList e⟩
  simp only [evalExpr, classIs, operandValue, columnValue, evalCmp, this]

theorem evalExpr_foldl_or (s : Schedule) :
    ∀ (cs : List String) (e : Expr) (b : Bool), evalExpr s e = .ok b →
      evalExpr s (cs.foldl (fun e x => .or e (classIs x)) e)
        = .ok (b || decide (s.ClassCode ∈ cs)) := by
  intro cs
  induction cs with
  | nil => intro e b h; simp [h]
  | cons c r ih =>
    intro e b h
    have h1 : evalExpr s (.or e (classIs c)) = .ok (b || decide (s.ClassCode = c)) := by
      rw [evalExpr, h, evalExpr_classIs]
    rw [List.foldl_cons, ih _ _ h1]
    simp [Bool.or_assoc]

theorem evalExpr_classAmong (s : Schedule) (c : String) (cs : List String) :
    evalExpr s (classAmong c cs) = .ok (decide (s.ClassCode ∈ c :: cs)) := by
  unfold classAmong
  rw [evalExpr_foldl_or s cs _ _ (evalExpr_classIs s c)]
  simp

theorem scanRows_eq_filter (e : Expr) (p : Schedule → Bool) :
    ∀ rows : List Schedule, (∀ s ∈ rows, evalExpr s e = .ok (p s)) →
      scanRows e rows = .ok (rows.filter p) := by
  intro rows
  induction rows with
  | nil => intro _; rfl
  | cons s rest ih =>
    intro h
    have h1 := h s (by simp)
    have h2 := ih (fun x hx => h x (by simp [hx]))
    simp only [scanRows, h1, h2, List.filter_cons]

/-! ## The text of `SelectedBy` and what the database makes of it -/

theorem SelectedByQuery_eq (q : Query) :
    SelectedByQuery q
      = "SELECT * FROM Schedule WHERE (classcode = \""
          ++ Join q.Classcodes "\" or classcode = \"" ++ "\")" ++ predicateTail q := by
  unfold SelectedByQuery predicateTail
  by_cases h1 : q.IsComplete = "" <;> by_cases h2 : q.Priority = "" <;>
    simp [h1, h2, String.append_assoc]

theorem Join_grouped (cs : List String) :
    ∀ c : String,
      "classcode = \"" ++ Join (c :: cs) "\" or classcode = \"" ++ "\""
        = Join ((c :: cs).map (fun x => "classcode = \"" ++ x ++ "\"")) " or " := by
  induction cs with
  | nil => intro c; simp [Join]
  | cons c1 rest ih =>
    intro c
    have h := ih c1
    simp only [List.map_cons, Join] at h ⊢
    rw [← h]
    have e : ("\" or classcode = \"" : String) = "\"" ++ " or " ++ "classcode = \"" := by
      decide
    rw [e]
    simp only [String.append_assoc]

theorem SelectedByQuery_grouped (q : Query) (hne : q.Classcodes ≠ []) :
    SelectedByQuery q = "SELECT * FROM Schedule WHERE " ++ groupedWhere q := by
  rw [SelectedByQuery_eq]
  unfold groupedWhere predicateTail
  obtain ⟨codes, ic, pr⟩ := q
  cases codes with
  | nil => exact absurd rfl hne
  | cons c cs =>
    simp only
    rw [← Join_grouped cs c]
    have e : ("SELECT * FROM Schedule WHERE (classcode = \"" : String)
        = "SELECT * FROM Schedule WHERE " ++ "(" ++ "classcode = \"" := by decide
    have e2 : ("\")" : String) = "\"" ++ ")" := by decide
    rw [e, e2]
    simp only [String.append_assoc]

/-- The tokens of the text of `SelectedBy` for class codes that hold no double
quote, followed by any text `tail`: a NUL in a class code makes the text end inside
a double-quoted token, which the database refuses. -/
theorem lex_of_codes (c : String) (cs : List String) (tail : String)
    (hq : ∀ x ∈ c :: cs, dq ∉ x.toList) :
    ((∃ x ∈ c :: cs, nul ∈ x.toList) →
        lex .start ("SELECT * FROM Schedule WHERE (classcode = \""
            ++ Join (c :: cs) "\" or classcode = \"" ++ "\")" ++ tail).toList
          = .error .malformed)
      ∧ ((∀ x ∈ c :: cs, nul ∉ x.toList) →
        lex .start ("SELECT * FROM Schedule WHERE (classcode = \""
            ++ Join (c :: cs) "\" or classcode = \"" ++ "\")" ++ tail).toList
          = withTokens (.word "select".toList :: .star :: .word "from".toList
              :: .word "schedule".toList :: .word "where".toList :: .lparen
              :: .word "classcode".toList :: .cmp .eq
              :: (codeTokens c cs ++ [.rparen])) (lex .start tail.toList)) := by
  have h0 := lex_append "SELECT * FROM Schedule WHERE (classcode = \"".toList
    ((Join (c :: cs) "\" or classcode = \"").toList ++ ("\")".toList ++ tail.toList))
    _ _ _ nul_not_mem_head lexRun_head
  have htext : ("SELECT * FROM Schedule WHERE (classcode = \""
        ++ Join (c :: cs) "\" or classcode = \"" ++ "\")" ++ tail).toList
      = "SELECT * FROM Schedule WHERE (classcode = \"".toList
          ++ ((Join (c :: cs) "\" or classcode = \"").toList
            ++ ("\")".toList ++ tail.toList)) := by
    simp only [toList_append, List.append_assoc]
  obtain ⟨h1, h2⟩ := lex_codes tail.toList cs c hq
  rw [htext, h0]
  constructor
  · intro hn
    rw [h1 hn]
    rfl
  · intro hn
    rw [h2 hn]
    cases lex .start tail.toList <;> simp [withTokens]

theorem parseSelect_head (rest : List Token) :
    parseSelect (.word "select".toList :: .star :: .word "from".toList
        :: .word "schedule".toList :: .word "where".toList :: .lparen :: rest)
      = parseExpr [(none, none)] (.atom none none) rest := by
  simp only [parseSelect, and_self, if_true]
  rw [parseExpr]

theorem exprHeight_foldl_or (cs : List String) :
    ∀ e : Expr, 2 ≤ exprHeight e →
      exprHeight (cs.foldl (fun e x => .or e (classIs x)) e) = exprHeight e + cs.length := by
  induction cs with
  | nil => intro e _; simp
  | cons c r ih =>
    intro e he
    have h1 : exprHeight (.or e (classIs c)) = exprHeight e + 1 := by
      simp only [exprHeight, classIs]
      omega
    rw [List.foldl_cons, ih _ (by omega), h1, List.length_cons]
    omega

theorem exprHeight_classAmong (c : String) (cs : List String) :
    exprHeight (classAmong c cs) = cs.length + 2 := by
  unfold classAmong
  rw [exprHeight_foldl_or cs _ (by simp [exprHeight, classIs])]
  simp only [exprHeight, classIs]
  omega

/-- What the database does with the text of `SelectedBy` for class codes that hold
no double quote and no NUL and spell no column: the tokens after the closing
parenthesis are parsed with the grouped class codes as the first condition. -/
theorem Query_of_codes (db : DB) (c : String) (cs : List String) (tail : String)
    (tailToks : List Token)
    (hq : ∀ x ∈ c :: cs, dq ∉ x.toList) (hn : ∀ x ∈ c :: cs, nul ∉ x.toList)
    (hc : ∀ x ∈ c :: cs, spellsColumn x = false)
    (ht : lex .start tail.toList = .ok tailToks) :
    db.Query ("SELECT * FROM Schedule WHERE (classcode = \""
        ++ Join (c :: cs) "\" or classcode = \"" ++ "\")" ++ tail)
      = match parseExpr [] (.oper none (classAmong c cs)) tailToks with
        | .error e => .error e
        | .ok e =>
          if maxExprDepth < exprHeight e then .error .malformed
          else if maxTextBytes < ("SELECT * FROM Schedule WHERE (classcode = \""
              ++ Join (c :: cs) "\" or classcode = \"" ++ "\")" ++ tail).utf8ByteSize
            then .error .outside
          else scanRows e db.rows := by
  unfold DB.Query
  rw [(lex_of_codes c cs tail hq).2 hn, ht]
  simp only [withTokens, List.cons_append, List.append_assoc, List.nil_append]
  rw [parseSelect_head, parseExpr_codes [] none none tailToks cs c none hc]
  rfl

/-- A double-quoted token is always an operand. -/
theorem operandOf_quoted (s : List Char) : ∃ x, operandOf (.quoted s) = .ok x := by
  cases h : columnOf (s.map Char.toLower) with
  | none => exact ⟨.text s, by simp only [operandOf, h]⟩
  | some col => exact ⟨.column col, by simp only [operandOf, h]⟩

/-- Whatever the class codes spell, the grouped class codes are parsed as one
condition. -/
theorem parseExpr_codes_any (stack : List (Option Expr × Option Expr))
    (d1 c1 : Option Expr) :
    ∀ (cs : List String) (c : String) (d : Option Expr),
      ∃ e, ∀ rest : List Token,
        parseExpr ((d1, c1) :: stack) (.atom d none)
            (.word "classcode".toList :: .cmp .eq :: (codeTokens c cs ++ .rparen :: rest))
          = parseExpr stack (.oper d1 (andWith c1 e)) rest := by
  intro cs
  induction cs with
  | nil =>
    intro c d
    obtain ⟨x, hx⟩ := operandOf_quoted c.toList
    refine ⟨orWith d (.cmp (.column .classcode) .eq x), fun rest => ?_⟩
    simp only [codeTokens, List.cons_append, List.nil_append]
    rw [parseExpr]
    · simp only [operandOf_classcode, hx]
      rw [show andWith none (Expr.cmp (.column .classcode) .eq x)
        = Expr.cmp (.column .classcode) .eq x from rfl, parseExpr_rparen]
    · intro e; cases e
  | cons c2 r ih =>
    intro c d
    obtain ⟨x, hx⟩ := operandOf_quoted c.toList
    obtain ⟨e, he⟩ := ih c2 (some (orWith d (.cmp (.column .classcode) .eq x)))
    refine ⟨e, fun rest => ?_⟩
    simp only [codeTokens, List.cons_append]
    rw [parseExpr]
    · simp only [operandOf_classcode, hx]
      rw [show andWith none (Expr.cmp (.column .classcode) .eq x)
        = Expr.cmp (.column .classcode) .eq x from rfl, parseExpr_or, he rest]
    · intro e1; cases e1

/-! ## SelectedBy makes no check of its own -/

/-- C4, as stated, fails. The predicate `~=true` does not begin with one of the six
operators, and `SelectedBy` places it as it is in the text it hands to the database.
The predicate ` >= 0 or 1 = 1` does not begin with one of them either; `SelectedBy`
does not reject it: on a registry with one entry of class `1A` and one of class `2B`
the selection for class `1A` returns both. -/
theorem SelectedBy_validates_nothing :
    beginsWithOperator "~=true" = false
      ∧ SelectedByQuery ⟨["1A"], "~=true", ""⟩
          = "SELECT * FROM Schedule WHERE (classcode = \"1A\") and is_complete~=true"
      ∧ beginsWithOperator " >= 0 or 1 = 1" = false
      ∧ DB.SelectedBy
          ⟨true, [⟨"1A", 5, 0, 0, false, false, false⟩, ⟨"2B", 1, 0, 0, false, false, false⟩]⟩
          ⟨["1A"], "", " >= 0 or 1 = 1"⟩
        = .ok [⟨"1A", 5, 0, 0, false, false, false⟩, ⟨"2B", 1, 0, 0, false, false, false⟩] := by
  refine ⟨by decide, by decide, by decide, rfl⟩

theorem lex_tilde_tail :
    lex .start " and is_complete~=true".toList
      = .ok [.word "and".toList, .word "is_complete".toList, .tilde, .cmp .eq,
          .word "true".toList] := by
  rfl

theorem parseExpr_tilde_tail (e : Expr) :
    parseExpr [] (.oper none e)
        [.word "and".toList, .word "is_complete".toList, .tilde, .cmp .eq,
          .word "true".toList]
      = .error .malformed := by
  rfl

/-- C4, amended: `SelectedBy` checks nothing itself. For every registry and query
its result is what the database returns for the text it assembles, and that text is
`SELECT * FROM Schedule WHERE (classcode = "` + the class codes joined by
`" or classcode = "` + `")`, then ` and is_complete` + the IsComplete predicate as it
is when it is not empty, then ` and priority` + the Priority predicate as it is when
it is not empty. The predicate `~=true` is refused by the database when it reads the
text (class codes without a double quote, no Priority predicate), so no entry is
returned. -/
theorem SelectedBy_hands_text_to_database (db : DB) (q : Query)
    (hne : q.Classcodes ≠ []) (hq : ∀ x ∈ q.Classcodes, dq ∉ x.toList) :
    db.SelectedBy q = db.Query (SelectedByQuery q)
      ∧ SelectedByQuery q
          = "SELECT * FROM Schedule WHERE (classcode = \""
            ++ Join q.Classcodes "\" or classcode = \"" ++ "\")"
            ++ ((if q.IsComplete = "" then "" else " and is_complete" ++ q.IsComplete)
              ++ (if q.Priority = "" then "" else " and priority" ++ q.Priority))
      ∧ db.SelectedBy ⟨q.Classcodes, "~=true", ""⟩ = .error .malformed := by
  refine ⟨rfl, SelectedByQuery_eq q, ?_⟩
  obtain ⟨codes, ic, pr⟩ := q
  cases codes with
  | nil => exact absurd rfl hne
  | cons c cs =>
    unfold DB.SelectedBy DB.Query
    rw [SelectedByQuery_eq]
    have ht : predicateTail ⟨c :: cs, "~=true", ""⟩ = " and is_complete~=true" := by rfl
    rw [ht]
    by_cases hn : ∃ x ∈ c :: cs, nul ∈ x.toList
    · rw [(lex_of_codes c cs _ hq).1 hn]
    · have hn1 : ∀ x ∈ c :: cs, nul ∉ x.toList := fun x hx h1 => hn ⟨x, hx, h1⟩
      rw [(lex_of_codes c cs _ hq).2 hn1, lex_tilde_tail]
      simp only [withTokens, List.cons_append, List.append_assoc, List.nil_append]
      obtain ⟨e, he⟩ := parseExpr_codes_any [] none none cs c none
      rw [parseSelect_head, he, show andWith none e = e from rfl, parseExpr_tilde_tail]

/-- The amended C4 at the query for class `1A`. -/
theorem SelectedBy_hands_text_to_database_witness :
    DB.SelectedBy ⟨true, [⟨"1A", 5, 0, 0, false, false, true⟩]⟩ ⟨["1A"], "=true", ">5"⟩
        = DB.Query ⟨true, [⟨"1A", 5, 0, 0, false, false, true⟩]⟩
            (SelectedByQuery ⟨["1A"], "=true", ">5"⟩)
      ∧ SelectedByQuery ⟨["1A"], "=true", ">5"⟩
          = "SELECT * FROM Schedule WHERE (classcode = \""
            ++ Join ["1A"] "\" or classcode = \"" ++ "\")"
            ++ ((if ("=true" : String) = "" then "" else " and is_complete" ++ "=true")
              ++ (if (">5" : String) = "" then "" else " and priority" ++ ">5"))
      ∧ DB.SelectedBy ⟨true, [⟨"1A", 5, 0, 0, false, false, true⟩]⟩ ⟨["1A"], "~=true", ""⟩
          = .error .malformed :=
  SelectedBy_hands_text_to_database ⟨true, [⟨"1A", 5, 0, 0, false, false, true⟩]⟩
    ⟨["1A"], "=true", ">5"⟩ (by decide) (by decide)

/-! ## Selection by class codes and completion -/

theorem lex_complete_tail :
    lex .start " and is_complete=true".toList
      = .ok [.word "and".toList, .word "is_complete".toList, .cmp .eq,
          .word "true".toList] := by
  rfl

theorem parseExpr_complete_tail (e : Expr) :
    parseExpr [] (.oper none e)
        [.word "and".toList, .word "is_complete".toList, .cmp .eq, .word "true".toList]
      = .ok (.and e (.cmp (.column .is_complete) .eq (.int 1))) := by
  rfl

theorem evalExpr_is_complete (s : Schedule) :
    evalExpr s (.cmp (.column .is_complete) .eq (.int 1)) = .ok s.IsComplete := by
  cases h : s.IsComplete <;>
    simp [evalExpr, operandValue, columnValue, evalCmp, compareInt, h]

/-- With the IsComplete predicate `=true`, 999 class codes or more make a condition
deeper than 1000, which the database refuses. -/
theorem SelectedBy_too_deep (db : DB) (c : String) (cs : List String)
    (hq : ∀ x ∈ c :: cs, dq ∉ x.toList) (hn : ∀ x ∈ c :: cs, nul ∉ x.toList)
    (hc : ∀ x ∈ c :: cs, spellsColumn x = false) (hlen : 998 ≤ cs.length) :
    db.SelectedBy ⟨c :: cs, "=true", ""⟩ = .error .malformed := by
  unfold DB.SelectedBy
  rw [SelectedByQuery_eq]
  have ht : predicateTail ⟨c :: cs, "=true", ""⟩ = " and is_complete=true" := by rfl
  rw [ht, Query_of_codes db c cs _ _ hq hn hc lex_complete_tail, parseExpr_complete_tail]
  have hdepth : maxExprDepth
      < exprHeight (.and (classAmong c cs) (.cmp (.column .is_complete) .eq (.int 1))) := by
    simp only [exprHeight, exprHeight_classAmong, maxExprDepth]
    omega
  simp only [hdepth, if_true]

/-- C5, as stated, fails. With the Priority predicate `>5` the entry `("1A", 5)` of
priority 0 has a class code of the query and `IsComplete == true`, and is not
returned. With the class code `classcode`, which holds no double quote, SQLite reads
`classcode = "classcode"` as a column compared with itself, and the entry of class
`1A` is returned. With the class code `a`, NUL, `b`, which holds no double quote, the
text ends at the NUL and the database refuses it, so the complete entry of that
class is not returned. With 999 class codes `A` the condition is deeper than 1000 and
the database refuses it, so the complete entry of class `A` is not returned. -/
theorem SelectedBy_priority_and_column_name :
    (["1A"] ≠ ([] : List String) ∧ dq ∉ "1A".toList
      ∧ (⟨"1A", 5, 0, 0, false, false, true⟩ : Schedule).ClassCode ∈ ["1A"]
      ∧ DB.SelectedBy ⟨true, [⟨"1A", 5, 0, 0, false, false, true⟩]⟩ ⟨["1A"], "=true", ">5"⟩
          = .ok [])
      ∧ (dq ∉ "classcode".toList
        ∧ (⟨"1A", 5, 0, 0, false, false, true⟩ : Schedule).ClassCode ∉ ["classcode"]
        ∧ DB.SelectedBy ⟨true, [⟨"1A", 5, 0, 0, false, false, true⟩]⟩
            ⟨["classcode"], "=true", ""⟩
          = .ok [⟨"1A", 5, 0, 0, false, false, true⟩])
      ∧ (dq ∉ "a\x00b".toList
        ∧ DB.SelectedBy ⟨true, [⟨"a\x00b", 5, 0, 0, false, false, true⟩]⟩
            ⟨["a\x00b"], "=true", ""⟩
          = .error .malformed)
      ∧ ((∀ x ∈ List.replicate 999 "A", dq ∉ x.toList)
        ∧ DB.SelectedBy ⟨true, [⟨"A", 5, 0, 0, false, false, true⟩]⟩
            ⟨List.replicate 999 "A", "=true", ""⟩
          = .error .malformed) := by
  have hall : ∀ x ∈ "A" :: List.replicate 998 "A",
      dq ∉ x.toList ∧ nul ∉ x.toList ∧ spellsColumn x = false := by
    intro x hx
    have hx1 : x = "A" := by
      rcases List.mem_cons.1 hx with e | e
      · exact e
      · exact (List.mem_replicate.1 e).2
    subst hx1
    exact ⟨by decide, by decide, by decide⟩
  refine ⟨⟨by decide, by decide, by decide, rfl⟩, ⟨by decide, by decide, rfl⟩,
    ⟨by decide, rfl⟩, fun x hx => (hall x hx).1, ?_⟩
  exact SelectedBy_too_deep _ "A" (List.replicate 998 "A") (fun x hx => (hall x hx).1)
    (fun x hx => (hall x hx).2.1) (fun x hx => (hall x hx).2.2)
    (by rw [List.length_replicate])

/-- C5, amended: for every registry and every query with a non-empty list of at
most 998 class codes that hold no double quote and no NUL character and spell no
column name, the IsComplete predicate `=true`, no Priority predicate and a statement
text of at most 1000000 bytes, `SelectedBy` returns entries, each of them an entry of
the registry whose class code is among those of the query and whose `IsComplete` is
true, and every such entry is returned. For every query with a non-empty list of
class codes the WHERE clause is the grouped one:
`(classcode = "c1" or ... or classcode = "cn")` followed by ` and is_complete` and
` and priority` with each predicate that is not empty. -/
theorem SelectedBy_complete_in_classes (db : DB) (q : Query)
    (hne : q.Classcodes ≠ []) (hlen : q.Classcodes.length ≤ 998)
    (hq : ∀ x ∈ q.Classcodes, dq ∉ x.toList) (hn : ∀ x ∈ q.Classcodes, nul ∉ x.toList)
    (hc : ∀ x ∈ q.Classcodes, spellsColumn x = false)
    (hic : q.IsComplete = "=true") (hp : q.Priority = "")
    (hbytes : (SelectedByQuery q).utf8ByteSize ≤ 1000000) :
    (∃ out, db.SelectedBy q = .ok out
        ∧ ∀ s, s ∈ out ↔ s ∈ db.rows ∧ s.ClassCode ∈ q.Classcodes ∧ s.IsComplete = true)
      ∧ ∀ q1 : Query, q1.Classcodes ≠ [] →
          SelectedByQuery q1 = "SELECT * FROM Schedule WHERE " ++ groupedWhere q1 := by
  refine ⟨?_, fun q1 h1 => SelectedByQuery_grouped q1 h1⟩
  obtain ⟨codes, ic, pr⟩ := q
  simp only at hne hlen hq hn hc hic hp
  subst hic hp
  cases codes with
  | nil => exact absurd rfl hne
  | cons c cs =>
    refine ⟨db.rows.filter (fun s => decide (s.ClassCode ∈ c :: cs) && s.IsComplete), ?_, ?_⟩
    · unfold DB.SelectedBy
      rw [SelectedByQuery_eq] at hbytes ⊢
      have ht : predicateTail ⟨c :: cs, "=true", ""⟩ = " and is_complete=true" := by rfl
      rw [ht] at hbytes
      rw [ht, Query_of_codes db c cs _ _ hq hn hc lex_complete_tail, parseExpr_complete_tail]
      have hdepth : ¬ maxExprDepth
          < exprHeight (.and (classAmong c cs) (.cmp (.column .is_complete) .eq (.int 1))) := by
        simp only [exprHeight, exprHeight_classAmong, maxExprDepth]
        simp only [List.length_cons] at hlen
        omega
      have hsize : ¬ maxTextBytes < ("SELECT * FROM Schedule WHERE (classcode = \""
          ++ Join (c :: cs) "\" or classcode = \"" ++ "\")"
          ++ " and is_complete=true").utf8ByteSize := by
        simp only [maxTextBytes]
        exact Nat.not_lt.2 hbytes
      simp only [hdepth, hsize, if_false]
      apply scanRows_eq_filter
      intro s _
      rw [evalExpr, evalExpr_classAmong, evalExpr_is_complete]
    · intro s
      simp only [List.mem_filter, Bool.and_eq_true, decide_eq_true_eq]

/-- The amended C5 at the query for classes `1A` and `2B`. -/
theorem SelectedBy_complete_in_classes_witness :
    (∃ out, DB.SelectedBy ⟨true, [⟨"1A", 5, 0, 0, false, false, true⟩]⟩
          ⟨["1A", "2B"], "=true", ""⟩ = .ok out
        ∧ ∀ s, s ∈ out ↔ s ∈ [(⟨"1A", 5, 0, 0, false, false, true⟩ : Schedule)]
            ∧ s.ClassCode ∈ ["1A", "2B"] ∧ s.IsComplete = true)
      ∧ ∀ q1 : Query, q1.Classcodes ≠ [] →
          SelectedByQuery q1 = "SELECT * FROM Schedule WHERE " ++ groupedWhere q1 :=
  SelectedBy_complete_in_classes ⟨true, [⟨"1A", 5, 0, 0, false, false, true⟩]⟩
    ⟨["1A", "2B"], "=true", ""⟩ (by decide) (by decide) (by decide) (by decide)
    (by decide) rfl rfl (by decide)

/-! ## Insert, then the list of the class -/

/-- C6: after a successful `Insert` of an absent key the list for its class code
should return exactly one entry with the key; `SelectedBy` does not for the class
codes it cannot write between double quotes. For the class code made of one double
quote the key is absent, `Insert` succeeds, and the list for that class code is
refused by the database: the text ends inside a double-quoted token. The same
happens for the class code `a`, NUL, `b`: the text ends at the NUL. For the class
code `priority` `Insert` succeeds and the list for that class code returns no entry:
SQLite reads `classcode = "priority"` as a comparison of two columns. -/
theorem Insert_then_list_loses_entry :
    (("\"", (5 : Int)) ∉ keys ⟨true, []⟩
      ∧ (DB.Insert ⟨true, []⟩ "\"" 5 7).2 = none
      ∧ (DB.Insert ⟨true, []⟩ "\"" 5 7).1.SelectedBy ⟨["\""], "", ""⟩
          = .error .malformed)
      ∧ (("priority", (5 : Int)) ∉ keys ⟨true, []⟩
        ∧ (DB.Insert ⟨true, []⟩ "priority" 5 7).2 = none
        ∧ (DB.Insert ⟨true, []⟩ "priority" 5 7).1.SelectedBy ⟨["priority"], "", ""⟩
            = .ok [])
      ∧ (("a\x00b", (5 : Int)) ∉ keys ⟨true, []⟩
        ∧ (DB.Insert ⟨true, []⟩ "a\x00b" 5 7).2 = none
        ∧ (DB.Insert ⟨true, []⟩ "a\x00b" 5 7).1.SelectedBy ⟨["a\x00b"], "", ""⟩
            = .error .malformed) := by
  refine ⟨⟨by simp [keys], rfl, rfl⟩, ⟨by simp [keys], rfl, rfl⟩, by simp [keys], rfl, rfl⟩

end Lineup
